import Mathlib

/-!
Verification of the request/response handling and result-aggregation layer of
the OSINTAAM command-line tool (src/main.py).

The embedding models:
* the Python values stored in searcher.results as a JSON-like value type
  (the program only ever stores strings, natural numbers, booleans, lists
  and string-keyed dicts);
* json.dumps(v, indent=2, ensure_ascii=False) and a structural re-parse
  of its output (the Python code serializes through the standard json
  module; both directions are modelled here so that round-trip claims are
  provable);
* the HTTP gateway OSINTSearcher.safe_request, with the outcome of the
  single session.get network attempt supplied as an explicit input (the
  response, or the raised requests exception);
* the five aggregator operations, export_results and save_results.
-/

/-- A JSON-like value: the type of Python values this program stores in
searcher.results and serializes with json.dumps.  Object fields keep
insertion order, as Python dicts do. -/
inductive JVal where
  | str (s : String)
  | num (n : Nat)
  | bool (b : Bool)
  | arr (elems : List JVal)
  | obj (fields : List (String × JVal))
deriving Repr

/-- Induction over JVal that hands the inductive hypothesis to every member
of a nested list. -/
theorem JVal.induct (P : JVal → Prop)
    (hstr : ∀ s, P (.str s)) (hnum : ∀ n, P (.num n)) (hbool : ∀ b, P (.bool b))
    (harr : ∀ vs, (∀ v ∈ vs, P v) → P (.arr vs))
    (hobj : ∀ ps, (∀ p ∈ ps, P (Prod.snd p)) → P (.obj ps)) : ∀ v, P v := fun v =>
  match v with
  | .str s => hstr s
  | .num n => hnum n
  | .bool b => hbool b
  | .arr vs => harr vs (fun x _ => JVal.induct P hstr hnum hbool harr hobj x)
  | .obj ps => hobj ps (fun p _ => JVal.induct P hstr hnum hbool harr hobj p.2)
termination_by v => sizeOf v
decreasing_by
  · rename_i hx
    have := List.sizeOf_lt_of_mem hx
    simp only [JVal.arr.sizeOf_spec]
    omega
  · rename_i hp
    have h1 := List.sizeOf_lt_of_mem hp
    obtain ⟨a, b⟩ := p
    simp only [JVal.obj.sizeOf_spec]
    simp only [Prod.mk.sizeOf_spec] at h1 ⊢
    omega

/-! ## Character helpers (ASCII fragments of Python str.lower / str.upper,
hex digits, decimal digits) -/

/-- Value of a hexadecimal digit character (0 for non-digits). -/
def hexDigitVal (c : Char) : Nat :=
  if 48 ≤ c.toNat ∧ c.toNat ≤ 57 then c.toNat - 48
  else if 97 ≤ c.toNat ∧ c.toNat ≤ 102 then c.toNat - 87
  else if 65 ≤ c.toNat ∧ c.toNat ≤ 70 then c.toNat - 55
  else 0

/-- Is the character a hexadecimal digit? -/
def isHexChar (c : Char) : Bool :=
  decide ((48 ≤ c.toNat ∧ c.toNat ≤ 57) ∨ (97 ≤ c.toNat ∧ c.toNat ≤ 102) ∨
    (65 ≤ c.toNat ∧ c.toNat ≤ 70))

/-- ASCII lower-casing of one character, as Python str.lower acts on the
ASCII characters this program compares format names with. -/
def lowerChar (c : Char) : Char :=
  if 65 ≤ c.toNat ∧ c.toNat ≤ 90 then Char.ofNat (c.toNat + 32) else c

/-- ASCII upper-casing of one character, as Python str.upper acts on the
ASCII keys this program upper-cases in the txt report. -/
def upperChar (c : Char) : Char :=
  if 97 ≤ c.toNat ∧ c.toNat ≤ 122 then Char.ofNat (c.toNat - 32) else c

/-- Python str.lower on the ASCII fragment. -/
def pyLower (s : String) : String := ⟨s.data.map lowerChar⟩

/-- Python str.upper on the ASCII fragment. -/
def pyUpper (s : String) : String := ⟨s.data.map upperChar⟩

theorem toNat_ofNat_valid {n : Nat} (h : n < 55296) : (Char.ofNat n).toNat = n := by
  have hv : n.isValidChar := Or.inl h
  simp only [Char.ofNat, hv, dite_true, Char.ofNatAux, Char.toNat]
  simp [UInt32.toNat, BitVec.toNat_ofNatLt]

theorem char_eq_of_toNat_eq {c d : Char} (h : c.toNat = d.toNat) : c = d := by
  have hc := Char.ofNat_toNat c
  rw [h, Char.ofNat_toNat] at hc
  exact hc.symm

/-! ## Decimal printing of natural numbers (the status codes stored by the
program), structurally recursive so that concrete runs reduce. -/

/-- Little-endian base-10 digits, fuel-driven. -/
def natDigitsAux : Nat → Nat → List Nat
  | 0, _ => []
  | _ + 1, 0 => []
  | fuel + 1, n + 1 => (n + 1) % 10 :: natDigitsAux fuel ((n + 1) / 10)

/-- Little-endian base-10 digits of n. -/
def natDigitsL (n : Nat) : List Nat := natDigitsAux n n

theorem natDigitsAux_eq (fuel n : Nat) (h : n ≤ fuel) :
    natDigitsAux fuel n = Nat.digits 10 n := by
  induction fuel generalizing n with
  | zero =>
    interval_cases n
    simp [natDigitsAux]
  | succ f ih =>
    match n with
    | 0 => simp [natDigitsAux]
    | m + 1 =>
      rw [natDigitsAux, ih _ (by
        have := Nat.div_lt_self (Nat.succ_pos m) (by norm_num : (1:Nat) < 10)
        omega)]
      rw [Nat.digits_def' (by norm_num : (1:Nat) < 10) (Nat.succ_pos m)]

theorem natDigitsL_eq (n : Nat) : natDigitsL n = Nat.digits 10 n :=
  natDigitsAux_eq n n le_rfl

/-- The decimal notation Python repr gives an int, as characters. -/
def natChars (n : Nat) : List Char :=
  if n = 0 then ['0'] else (natDigitsL n).reverse.map Nat.digitChar

/-! ## String escaping, as json.dumps with ensure_ascii=False performs it:
quote, backslash and control characters are escaped, everything else is
emitted verbatim. -/

/-- How json.dumps emits one character of a string. -/
def escapeChar (c : Char) : List Char :=
  if c = '"' then ['\\', '"']
  else if c = '\\' then ['\\', '\\']
  else if c.toNat = 8 then ['\\', 'b']
  else if c.toNat = 9 then ['\\', 't']
  else if c.toNat = 10 then ['\\', 'n']
  else if c.toNat = 12 then ['\\', 'f']
  else if c.toNat = 13 then ['\\', 'r']
  else if c.toNat < 32 then
    ['\\', 'u', '0', '0', Nat.digitChar (c.toNat / 16), Nat.digitChar (c.toNat % 16)]
  else [c]

/-- How json.dumps emits the body of a string. -/
def escapeList : List Char → List Char
  | [] => []
  | c :: cs => escapeChar c ++ escapeList cs

/-! ## The printer: json.dumps(v, indent=2, ensure_ascii=False).
With a positive indent the standard json module places every container
item on a line of its own, indented two spaces deeper, separates items
with a comma, separates keys from values with a colon and a space, and
prints empty containers without any newline. -/

/-- Indentation for nesting depth lvl: 2*lvl spaces. -/
def jIndent (lvl : Nat) : List Char := List.replicate (2 * lvl) ' '

mutual

/-- json.dumps(v, indent=2, ensure_ascii=False) at nesting depth lvl. -/
def printVal : Nat → JVal → List Char
  | _, .str s => '"' :: (escapeList s.data ++ ['"'])
  | _, .num n => natChars n
  | _, .bool b => if b then ['t', 'r', 'u', 'e'] else ['f', 'a', 'l', 's', 'e']
  | _, .arr [] => ['[', ']']
  | lvl, .arr (v :: vs) =>
    '[' :: '\n' :: (printElems (lvl + 1) v vs ++ '\n' :: (jIndent lvl ++ [']']))
  | _, .obj [] => ['{', '}']
  | lvl, .obj (p :: ps) =>
    '{' :: '\n' :: (printFields (lvl + 1) p ps ++ '\n' :: (jIndent lvl ++ ['}']))
termination_by lvl v => sizeOf v
decreasing_by all_goals (simp only [JVal.arr.sizeOf_spec, JVal.obj.sizeOf_spec,
  List.cons.sizeOf_spec, List.nil.sizeOf_spec, Prod.mk.sizeOf_spec] at *; omega)

/-- The comma-and-newline separated items of a non-empty array. -/
def printElems : Nat → JVal → List JVal → List Char
  | lvl, v, [] => jIndent lvl ++ printVal lvl v
  | lvl, v, w :: vs =>
    jIndent lvl ++ printVal lvl v ++ ',' :: '\n' :: printElems lvl w vs
termination_by lvl v vs => 1 + sizeOf v + sizeOf vs
decreasing_by all_goals (simp only [JVal.arr.sizeOf_spec, JVal.obj.sizeOf_spec,
  List.cons.sizeOf_spec, List.nil.sizeOf_spec, Prod.mk.sizeOf_spec] at *; omega)

/-- The comma-and-newline separated fields of a non-empty object. -/
def printFields : Nat → (String × JVal) → List (String × JVal) → List Char
  | lvl, (k, v), [] =>
    jIndent lvl ++ ('"' :: (escapeList k.data ++ '"' :: ':' :: ' ' :: printVal lvl v))
  | lvl, (k, v), q :: ps =>
    jIndent lvl ++ ('"' :: (escapeList k.data ++ '"' :: ':' :: ' ' :: printVal lvl v))
      ++ ',' :: '\n' :: printFields lvl q ps
termination_by lvl p ps => 1 + sizeOf p + sizeOf ps
decreasing_by all_goals (simp only [JVal.arr.sizeOf_spec, JVal.obj.sizeOf_spec,
  List.cons.sizeOf_spec, List.nil.sizeOf_spec, Prod.mk.sizeOf_spec] at *; omega)

end

/-- json.dumps(v, indent=2, ensure_ascii=False) as a string. -/
def dumpsJson (v : JVal) : String := ⟨printVal 0 v⟩

/-! ## A structural re-parse of the printed output (model of json.loads):
whitespace-tolerant recursive descent, fuelled for termination. -/

/-- JSON whitespace. -/
def isWsChar (c : Char) : Bool := c = ' ' || c = '\n' || c = '\t' || c = '\r'

/-- Drop leading JSON whitespace. -/
def skipWs (cs : List Char) : List Char := cs.dropWhile isWsChar

/-- Parse the body of a string literal after the opening quote, undoing the
escapes of escapeChar (and the slash escape json.loads also accepts).
Raw control characters are rejected, as json.loads rejects them. -/
def parseStrGo : List Char → Option (List Char × List Char)
  | [] => none
  | c :: rest =>
    if c = '"' then some ([], rest)
    else if c = '\\' then
      match rest with
      | [] => none
      | e :: rest2 =>
        if e = '"' then (parseStrGo rest2).map (fun p => ('"' :: p.1, p.2))
        else if e = '\\' then (parseStrGo rest2).map (fun p => ('\\' :: p.1, p.2))
        else if e = '/' then (parseStrGo rest2).map (fun p => ('/' :: p.1, p.2))
        else if e = 'b' then (parseStrGo rest2).map (fun p => (Char.ofNat 8 :: p.1, p.2))
        else if e = 'f' then (parseStrGo rest2).map (fun p => (Char.ofNat 12 :: p.1, p.2))
        else if e = 'n' then (parseStrGo rest2).map (fun p => ('\n' :: p.1, p.2))
        else if e = 'r' then (parseStrGo rest2).map (fun p => (Char.ofNat 13 :: p.1, p.2))
        else if e = 't' then (parseStrGo rest2).map (fun p => ('\t' :: p.1, p.2))
        else if e = 'u' then
          match rest2 with
          | h1 :: h2 :: h3 :: h4 :: rest3 =>
            if isHexChar h1 && isHexChar h2 && isHexChar h3 && isHexChar h4 then
              (parseStrGo rest3).map (fun p =>
                (Char.ofNat (((hexDigitVal h1 * 16 + hexDigitVal h2) * 16
                  + hexDigitVal h3) * 16 + hexDigitVal h4) :: p.1, p.2))
            else none
          | _ => none
        else none
    else if c.toNat < 32 then none
    else (parseStrGo rest).map (fun p => (c :: p.1, p.2))

/-- Numeric value of a big-endian run of decimal digit characters. -/
def digitsVal (ds : List Char) : Nat :=
  ds.foldl (fun a c => 10 * a + hexDigitVal c) 0

/-- Parse a non-empty run of decimal digits as a natural number. -/
def parseNat (cs : List Char) : Option (Nat × List Char) :=
  let ds := cs.takeWhile (fun c => c.isDigit)
  if ds.isEmpty then none
  else some (digitsVal ds, cs.dropWhile (fun c => c.isDigit))

mutual

/-- Parse one JSON value, skipping leading whitespace. -/
def parseVal : Nat → List Char → Option (JVal × List Char)
  | 0, _ => none
  | fuel + 1, cs =>
    match skipWs cs with
    | [] => none
    | c :: rest =>
      if c = '"' then (parseStrGo rest).map (fun p => (.str ⟨p.1⟩, p.2))
      else if c = '{' then
        match skipWs rest with
        | [] => none
        | d :: r2 =>
          if d = '}' then some (.obj [], r2)
          else (parseFields fuel (d :: r2)).map (fun p => (.obj p.1, p.2))
      else if c = '[' then
        match skipWs rest with
        | [] => none
        | d :: r2 =>
          if d = ']' then some (.arr [], r2)
          else (parseElems fuel (d :: r2)).map (fun p => (.arr p.1, p.2))
      else if c = 't' then
        match rest with
        | 'r' :: 'u' :: 'e' :: r2 => some (.bool true, r2)
        | _ => none
      else if c = 'f' then
        match rest with
        | 'a' :: 'l' :: 's' :: 'e' :: r2 => some (.bool false, r2)
        | _ => none
      else if c.isDigit then (parseNat (c :: rest)).map (fun p => (.num p.1, p.2))
      else none

/-- Parse the fields of a non-empty object, from the first key up to and
including the closing brace. -/
def parseFields : Nat → List Char → Option (List (String × JVal) × List Char)
  | 0, _ => none
  | fuel + 1, cs =>
    match cs with
    | '"' :: r1 =>
      match parseStrGo r1 with
      | none => none
      | some (k, r2) =>
        match skipWs r2 with
        | [] => none
        | d :: r3 =>
          if d = ':' then
            match parseVal fuel r3 with
            | none => none
            | some (v, r4) =>
              match skipWs r4 with
              | [] => none
              | e :: r5 =>
                if e = ',' then
                  (parseFields fuel (skipWs r5)).map (fun p => ((⟨k⟩, v) :: p.1, p.2))
                else if e = '}' then some ([(⟨k⟩, v)], r5)
                else none
          else none
    | _ => none

/-- Parse the items of a non-empty array, from the first item up to and
including the closing bracket. -/
def parseElems : Nat → List Char → Option (List JVal × List Char)
  | 0, _ => none
  | fuel + 1, cs =>
    match parseVal fuel cs with
    | none => none
    | some (v, r1) =>
      match skipWs r1 with
      | [] => none
      | e :: r2 =>
        if e = ',' then (parseElems fuel r2).map (fun p => (v :: p.1, p.2))
        else if e = ']' then some ([v], r2)
        else none

end

/-- Structurally re-parse a JSON document (model of json.loads restricted to
the value shapes this program emits). -/
def parseJson (s : String) : Option JVal :=
  match parseVal (s.data.length + 1) s.data with
  | some (v, rest) => if (skipWs rest).isEmpty then some v else none
  | none => none

/-! ## Small bridging facts about characters and whitespace -/

theorem char_eq_iff_toNat {c d : Char} : c = d ↔ c.toNat = d.toNat := by
  constructor
  · intro h; rw [h]
  · exact char_eq_of_toNat_eq

theorem isDigit_iff {c : Char} : c.isDigit = true ↔ 48 ≤ c.toNat ∧ c.toNat ≤ 57 := by
  simp only [Char.isDigit, Char.toNat, UInt32.le_def, BitVec.le_def, Bool.and_eq_true,
    decide_eq_true_eq, ge_iff_le]
  exact Iff.rfl

theorem isWsChar_iff {c : Char} :
    isWsChar c = true ↔ (c.toNat = 32 ∨ c.toNat = 10 ∨ c.toNat = 9 ∨ c.toNat = 13) := by
  simp only [isWsChar, Bool.or_eq_true, decide_eq_true_eq, char_eq_iff_toNat,
    show ' '.toNat = 32 from rfl, show '\n'.toNat = 10 from rfl,
    show '\t'.toNat = 9 from rfl, show '\r'.toNat = 13 from rfl]
  tauto

theorem string_mk_data (s : String) : String.mk s.data = s := rfl

/-- dropWhile over a block of characters all satisfying the predicate. -/
theorem dropWhile_append_all {p : Char → Bool} {a : List Char}
    (h : ∀ c ∈ a, p c = true) (b : List Char) :
    (a ++ b).dropWhile p = b.dropWhile p := by
  induction a with
  | nil => rfl
  | cons c cs ih =>
    simp only [List.cons_append, List.dropWhile_cons, h c (by simp)]
    exact ih (fun x hx => h x (by simp [hx]))

theorem dropWhile_cons_neg {p : Char → Bool} {c : Char} (h : p c = false)
    (b : List Char) : (c :: b).dropWhile p = c :: b := by
  simp [List.dropWhile_cons, h]

theorem takeWhile_append_all {p : Char → Bool} {a b : List Char}
    (ha : ∀ c ∈ a, p c = true)
    (hb : b = [] ∨ ∃ c t, b = c :: t ∧ p c = false) :
    (a ++ b).takeWhile p = a := by
  induction a with
  | nil =>
    rcases hb with rfl | ⟨c, t, rfl, hc⟩
    · rfl
    · simp [List.takeWhile_cons, hc]
  | cons c cs ih =>
    have hc := ha c (by simp)
    have ihr := ih (fun x hx => ha x (by simp [hx]))
    simp [List.takeWhile_cons, hc, ihr]

theorem skipWs_append_all {a : List Char} (h : ∀ c ∈ a, isWsChar c = true)
    (b : List Char) : skipWs (a ++ b) = skipWs b :=
  dropWhile_append_all h b

theorem skipWs_cons_ws {c : Char} (h : isWsChar c = true) (b : List Char) :
    skipWs (c :: b) = skipWs b := by
  simpa using skipWs_append_all (a := [c]) (by simpa using h) b

theorem skipWs_cons_not {c : Char} (h : isWsChar c = false) (b : List Char) :
    skipWs (c :: b) = c :: b :=
  dropWhile_cons_neg h b

theorem jIndent_all_ws (lvl : Nat) : ∀ c ∈ jIndent lvl, isWsChar c = true := by
  intro c hc
  rw [List.eq_of_mem_replicate hc]
  rfl

/-- Does the remainder avoid starting with a digit (so that a printed number
followed by it re-parses to exactly the number)? -/
def headNotDigit : List Char → Bool
  | [] => true
  | c :: _ => !c.isDigit

/-! ## Fuel needed by the structural re-parse of a printed value -/

mutual

/-- Fuel sufficient for parseVal on the printed form of v. -/
def needFuel : JVal → Nat
  | .str _ => 1
  | .num _ => 1
  | .bool _ => 1
  | .arr [] => 1
  | .arr (v :: vs) => 1 + needElems v vs
  | .obj [] => 1
  | .obj (p :: ps) => 1 + needFields p ps
termination_by v => sizeOf v
decreasing_by all_goals (simp only [JVal.arr.sizeOf_spec, JVal.obj.sizeOf_spec,
  List.cons.sizeOf_spec, List.nil.sizeOf_spec, Prod.mk.sizeOf_spec] at *; omega)

/-- Fuel sufficient for parseElems on printed array items. -/
def needElems : JVal → List JVal → Nat
  | v, [] => 1 + needFuel v
  | v, w :: vs => 1 + needFuel v + needElems w vs
termination_by v vs => 1 + sizeOf v + sizeOf vs
decreasing_by all_goals (simp only [JVal.arr.sizeOf_spec, JVal.obj.sizeOf_spec,
  List.cons.sizeOf_spec, List.nil.sizeOf_spec, Prod.mk.sizeOf_spec] at *; omega)

/-- Fuel sufficient for parseFields on printed object fields. -/
def needFields : (String × JVal) → List (String × JVal) → Nat
  | p, [] => 1 + needFuel (Prod.snd p)
  | p, q :: ps => 1 + needFuel (Prod.snd p) + needFields q ps
termination_by p ps => 1 + sizeOf p + sizeOf ps
decreasing_by
  all_goals
    obtain ⟨k, v⟩ := p
    simp only [JVal.arr.sizeOf_spec, JVal.obj.sizeOf_spec, List.cons.sizeOf_spec,
      List.nil.sizeOf_spec, Prod.mk.sizeOf_spec] at *
    omega

end

theorem needFuel_pos (v : JVal) : 1 ≤ needFuel v := by
  cases v with
  | str s => simp [needFuel]
  | num n => simp [needFuel]
  | bool b => simp [needFuel]
  | arr vs => cases vs <;> simp [needFuel]
  | obj ps => cases ps <;> simp [needFuel]

theorem needElems_pos (v : JVal) (vs : List JVal) : 1 + needFuel v ≤ needElems v vs := by
  cases vs with
  | nil => simp [needElems]
  | cons w ws =>
    simp only [needElems]
    omega

/-! ## Round trip for escaped strings -/

theorem digitChar_hex_facts : ∀ d : Nat, d < 16 →
    isHexChar (Nat.digitChar d) = true ∧ hexDigitVal (Nat.digitChar d) = d := by decide

theorem digitChar_digit_facts : ∀ d : Nat, d < 10 →
    (Nat.digitChar d).isDigit = true ∧ hexDigitVal (Nat.digitChar d) = d := by decide

theorem parseStrGo_escape (cs : List Char) (rest : List Char) :
    parseStrGo (escapeList cs ++ '"' :: rest) = some (cs, rest) := by
  induction cs with
  | nil =>
    rw [escapeList, List.nil_append, parseStrGo.eq_def]
    simp
  | cons c cs ih =>
    rw [escapeList, List.append_assoc]
    by_cases h1 : c = '"'
    · subst h1
      rw [show escapeChar '"' = ['\\', '"'] from rfl]
      rw [List.cons_append, List.cons_append, List.nil_append, parseStrGo.eq_def]
      simp [ih]
    by_cases h2 : c = '\\'
    · subst h2
      rw [show escapeChar '\\' = ['\\', '\\'] from rfl]
      rw [List.cons_append, List.cons_append, List.nil_append, parseStrGo.eq_def]
      simp [ih]
    by_cases h8 : c.toNat = 8
    · have hc : c = Char.ofNat 8 := char_eq_of_toNat_eq (by rw [h8]; decide)
      rw [show escapeChar c = ['\\', 'b'] by simp [escapeChar, h1, h2, h8]]
      rw [List.cons_append, List.cons_append, List.nil_append, parseStrGo.eq_def]
      simp [ih, hc]
    by_cases h9 : c.toNat = 9
    · have hc : c = '\t' := char_eq_of_toNat_eq (by rw [h9]; decide)
      rw [show escapeChar c = ['\\', 't'] by simp [escapeChar, h1, h2, h8, h9]]
      rw [List.cons_append, List.cons_append, List.nil_append, parseStrGo.eq_def]
      simp [ih, hc]
    by_cases h10 : c.toNat = 10
    · have hc : c = '\n' := char_eq_of_toNat_eq (by rw [h10]; decide)
      rw [show escapeChar c = ['\\', 'n'] by simp [escapeChar, h1, h2, h8, h9, h10]]
      rw [List.cons_append, List.cons_append, List.nil_append, parseStrGo.eq_def]
      simp [ih, hc]
    by_cases h12 : c.toNat = 12
    · have hc : c = Char.ofNat 12 := char_eq_of_toNat_eq (by rw [h12]; decide)
      rw [show escapeChar c = ['\\', 'f'] by simp [escapeChar, h1, h2, h8, h9, h10, h12]]
      rw [List.cons_append, List.cons_append, List.nil_append, parseStrGo.eq_def]
      simp [ih, hc]
    by_cases h13 : c.toNat = 13
    · have hc : c = Char.ofNat 13 := char_eq_of_toNat_eq (by rw [h13]; decide)
      rw [show escapeChar c = ['\\', 'r'] by simp [escapeChar, h1, h2, h8, h9, h10, h12, h13]]
      rw [List.cons_append, List.cons_append, List.nil_append, parseStrGo.eq_def]
      simp [ih, hc]
    by_cases h32 : c.toNat < 32
    · rw [show escapeChar c = ['\\', 'u', '0', '0', Nat.digitChar (c.toNat / 16),
        Nat.digitChar (c.toNat % 16)] by simp [escapeChar, h1, h2, h8, h9, h10, h12, h13, h32]]
      have hdiv : c.toNat / 16 < 16 := by omega
      have hmod : c.toNat % 16 < 16 := Nat.mod_lt _ (by norm_num)
      obtain ⟨hhex1, hval1⟩ := digitChar_hex_facts _ hdiv
      obtain ⟨hhex2, hval2⟩ := digitChar_hex_facts _ hmod
      simp only [List.cons_append, List.nil_append]
      rw [parseStrGo.eq_def]
      simp only [reduceIte, hhex1, hhex2, show isHexChar '0' = true from rfl,
        Bool.and_self, Bool.and_true, Bool.true_and, if_true, ite_true]
      rw [ih]
      rw [hval1, hval2]
      have hval : ((hexDigitVal '0' * 16 + hexDigitVal '0') * 16 + c.toNat / 16) * 16
          + c.toNat % 16 = c.toNat := by
        rw [show hexDigitVal '0' = 0 from rfl]
        omega
      rw [hval, Char.ofNat_toNat]
      rfl
    · rw [show escapeChar c = [c] by simp [escapeChar, h1, h2, h8, h9, h10, h12, h13, h32]]
      rw [List.cons_append, List.nil_append, parseStrGo.eq_def]
      simp [h1, h2, h32, ih]

/-! ## Round trip for printed numbers -/

theorem natChars_ne_nil (n : Nat) : natChars n ≠ [] := by
  unfold natChars
  split
  · simp
  · rename_i h
    rw [natDigitsL_eq]
    simp only [ne_eq, List.map_eq_nil, List.reverse_eq_nil_iff]
    exact Nat.digits_ne_nil_iff_ne_zero.mpr h

theorem natChars_all_digits (n : Nat) : ∀ c ∈ natChars n, c.isDigit = true := by
  intro c hc
  unfold natChars at hc
  split at hc
  · simp at hc
    rw [hc]
    decide
  · rw [natDigitsL_eq] at hc
    simp only [List.mem_map, List.mem_reverse] at hc
    obtain ⟨d, hd, rfl⟩ := hc
    exact (digitChar_digit_facts d (Nat.digits_lt_base (by norm_num) hd)).1

theorem foldl_digit_chars (L : List Nat) (hL : ∀ d ∈ L, d < 10) (a : Nat) :
    List.foldl (fun acc c => 10 * acc + hexDigitVal c) a (L.reverse.map Nat.digitChar)
      = a * 10 ^ L.length + Nat.ofDigits 10 L := by
  induction L generalizing a with
  | nil => simp
  | cons d L ih =>
    have hd : hexDigitVal (Nat.digitChar d) = d :=
      (digitChar_digit_facts d (hL d (by simp))).2
    simp only [List.reverse_cons, List.map_append, List.map_cons, List.map_nil,
      List.foldl_append, List.foldl_cons, List.foldl_nil]
    rw [ih (fun x hx => hL x (by simp [hx]))]
    rw [hd, Nat.ofDigits_cons, List.length_cons, pow_succ]
    ring

theorem digitsVal_natChars (n : Nat) : digitsVal (natChars n) = n := by
  unfold natChars digitsVal
  split
  · rename_i h
    subst h
    decide
  · rename_i h
    rw [natDigitsL_eq]
    rw [foldl_digit_chars _ (fun d hd => Nat.digits_lt_base (by norm_num) hd) 0]
    simp [Nat.ofDigits_digits]

theorem parseNat_natChars (n : Nat) (rest : List Char) (h : headNotDigit rest = true) :
    parseNat (natChars n ++ rest) = some (n, rest) := by
  have hrest : rest = [] ∨ ∃ c t, rest = c :: t ∧ (fun c => c.isDigit) c = false := by
    cases rest with
    | nil => exact Or.inl rfl
    | cons c t =>
      refine Or.inr ⟨c, t, rfl, ?_⟩
      simpa [headNotDigit] using h
  have htake := takeWhile_append_all (natChars_all_digits n) hrest
  have hdrop : (natChars n ++ rest).dropWhile (fun c => c.isDigit) = rest := by
    rw [dropWhile_append_all (natChars_all_digits n)]
    rcases hrest with rfl | ⟨c, t, rfl, hc⟩
    · rfl
    · exact dropWhile_cons_neg hc t
  unfold parseNat
  simp only [htake, hdrop]
  rw [if_neg (by simpa [List.isEmpty_iff] using natChars_ne_nil n)]
  rw [digitsVal_natChars]

/-! ## First characters of printed values, and whitespace absorption -/

/-- Characters a printed value can start with. -/
def goodFirst (c : Char) : Bool :=
  c = '"' || c = '{' || c = '[' || c = 't' || c = 'f' || c.isDigit

theorem goodFirst_not_ws {c : Char} (h : goodFirst c = true) : isWsChar c = false := by
  simp only [goodFirst, Bool.or_eq_true, decide_eq_true_eq] at h
  rcases h with ((((rfl | rfl) | rfl) | rfl) | rfl) | hd
  · rfl
  · rfl
  · rfl
  · rfl
  · rfl
  · rw [isDigit_iff] at hd
    cases hws : isWsChar c
    · rfl
    · rw [isWsChar_iff] at hws
      omega

theorem goodFirst_ne_close {c : Char} (h : goodFirst c = true) :
    c ≠ ']' ∧ c ≠ '}' ∧ c ≠ ',' ∧ c ≠ ':' := by
  simp only [goodFirst, Bool.or_eq_true, decide_eq_true_eq] at h
  refine ⟨fun hc => ?_, fun hc => ?_, fun hc => ?_, fun hc => ?_⟩ <;>
    (subst hc;
     rcases h with ((((h | h) | h) | h) | h) | h <;>
       first
       | exact absurd h (by decide)
       | (rw [isDigit_iff] at h; revert h; decide))

theorem printVal_starts (lvl : Nat) (v : JVal) :
    ∃ c t, printVal lvl v = c :: t ∧ goodFirst c = true := by
  cases v with
  | str s => exact ⟨'"', _, by rw [printVal], by decide⟩
  | num n =>
    cases hnc : natChars n with
    | nil => exact absurd hnc (natChars_ne_nil n)
    | cons c t =>
      refine ⟨c, t, by rw [printVal, hnc], ?_⟩
      have hd : c.isDigit = true := natChars_all_digits n c (by rw [hnc]; simp)
      simp [goodFirst, hd]
  | bool b =>
    cases b
    · exact ⟨'f', _, by rw [printVal]; rfl, by decide⟩
    · exact ⟨'t', _, by rw [printVal]; rfl, by decide⟩
  | arr vs =>
    cases vs
    · exact ⟨'[', _, by rw [printVal], by decide⟩
    · exact ⟨'[', _, by rw [printVal], by decide⟩
  | obj ps =>
    cases ps
    · exact ⟨'{', _, by rw [printVal], by decide⟩
    · exact ⟨'{', _, by rw [printVal], by decide⟩

theorem parseVal_ws (fuel : Nat) {a : List Char} (ha : ∀ c ∈ a, isWsChar c = true)
    (x : List Char) : parseVal fuel (a ++ x) = parseVal fuel x := by
  cases fuel with
  | zero => rfl
  | succ f =>
    rw [parseVal, parseVal, skipWs_append_all ha]

theorem parseElems_ws (fuel : Nat) {a : List Char} (ha : ∀ c ∈ a, isWsChar c = true)
    (x : List Char) : parseElems fuel (a ++ x) = parseElems fuel x := by
  cases fuel with
  | zero => rfl
  | succ f =>
    rw [parseElems, parseElems, parseVal_ws f ha]

theorem parseElems_skipWs (fuel : Nat) (y : List Char) :
    parseElems fuel (skipWs y) = parseElems fuel y := by
  conv_rhs => rw [← List.takeWhile_append_dropWhile (p := isWsChar) (l := y)]
  rw [parseElems_ws fuel (fun c hc => List.mem_takeWhile_imp hc)]
  rfl

/-- Round-trip property of one value: its printed form, followed by any
remainder not starting with a digit, re-parses to exactly the value. -/
def RTP (v : JVal) : Prop :=
  ∀ lvl fuel rest, needFuel v ≤ fuel → headNotDigit rest = true →
    parseVal fuel (printVal lvl v ++ rest) = some (v, rest)

theorem parseElems_printElems :
    ∀ (vs : List JVal) (v : JVal), (∀ x ∈ v :: vs, RTP x) →
    ∀ (lvl fuel : Nat) (ws rest : List Char), needElems v vs ≤ fuel →
      (∀ c ∈ ws, isWsChar c = true) →
      parseElems fuel (printElems lvl v vs ++ '\n' :: (ws ++ ']' :: rest))
        = some (v :: vs, rest) := by
  intro vs
  induction vs with
  | nil =>
    intro v hm lvl fuel ws rest hfuel hws
    have hv := hm v (by simp)
    rw [needElems] at hfuel
    obtain ⟨f, rfl⟩ : ∃ f, fuel = f + 1 := ⟨fuel - 1, by have := needFuel_pos v; omega⟩
    rw [printElems, parseElems]
    simp only [List.append_assoc, List.cons_append]
    rw [parseVal_ws f (jIndent_all_ws lvl)]
    rw [hv lvl f ('\n' :: (ws ++ ']' :: rest)) (by omega) (by simp [headNotDigit])]
    have h1 : skipWs ('\n' :: (ws ++ ']' :: rest)) = ']' :: rest := by
      rw [skipWs_cons_ws (by decide), skipWs_append_all hws, skipWs_cons_not (by decide)]
    simp [h1]
  | cons w vs' ih =>
    intro v hm lvl fuel ws rest hfuel hws
    have hv := hm v (by simp)
    rw [needElems] at hfuel
    have hpos2 : 1 + needFuel w ≤ needElems w vs' := needElems_pos w vs'
    obtain ⟨f, rfl⟩ : ∃ f, fuel = f + 1 :=
      ⟨fuel - 1, by have := needFuel_pos v; omega⟩
    rw [printElems, parseElems]
    simp only [List.append_assoc, List.cons_append]
    rw [parseVal_ws f (jIndent_all_ws lvl)]
    rw [hv lvl f (',' :: '\n' :: (printElems lvl w vs' ++ '\n' :: (ws ++ ']' :: rest)))
      (by omega) (by simp [headNotDigit])]
    have h1 : skipWs (',' :: '\n' :: (printElems lvl w vs' ++ '\n' :: (ws ++ ']' :: rest)))
        = ',' :: '\n' :: (printElems lvl w vs' ++ '\n' :: (ws ++ ']' :: rest)) :=
      skipWs_cons_not (show isWsChar ',' = false from rfl) _
    have hstep : parseElems f ('\n' :: (printElems lvl w vs' ++ '\n' :: (ws ++ ']' :: rest)))
        = some (w :: vs', rest) := by
      rw [show ('\n' :: (printElems lvl w vs' ++ '\n' :: (ws ++ ']' :: rest)))
        = ['\n'] ++ (printElems lvl w vs' ++ '\n' :: (ws ++ ']' :: rest)) from rfl]
      rw [parseElems_ws f (by decide)]
      exact ih w (fun x hx => hm x (by simp [hx])) lvl f ws rest (by omega) hws
    simp [h1, hstep]

theorem parseFields_printFields :
    ∀ (ps : List (String × JVal)) (k : String) (v : JVal),
      (∀ q ∈ (k, v) :: ps, RTP (Prod.snd q)) →
    ∀ (lvl fuel : Nat) (ws rest : List Char), needFields (k, v) ps ≤ fuel →
      (∀ c ∈ ws, isWsChar c = true) →
      parseFields fuel (skipWs (printFields lvl (k, v) ps ++ '\n' :: (ws ++ '}' :: rest)))
        = some ((k, v) :: ps, rest) := by
  intro ps
  induction ps with
  | nil =>
    intro k v hm lvl fuel ws rest hfuel hws
    have hv := hm (k, v) (by simp)
    rw [needFields] at hfuel
    obtain ⟨f, rfl⟩ : ∃ f, fuel = f + 1 := ⟨fuel - 1, by have := needFuel_pos v; omega⟩
    rw [printFields]
    simp only [List.append_assoc, List.cons_append]
    rw [skipWs_append_all (jIndent_all_ws lvl),
      skipWs_cons_not (show isWsChar '"' = false from rfl)]
    rw [parseFields]
    have hstr := parseStrGo_escape k.data
      (':' :: ' ' :: (printVal lvl v ++ '\n' :: (ws ++ '}' :: rest)))
    have hsk2 : skipWs (':' :: ' ' :: (printVal lvl v ++ '\n' :: (ws ++ '}' :: rest)))
        = ':' :: ' ' :: (printVal lvl v ++ '\n' :: (ws ++ '}' :: rest)) :=
      skipWs_cons_not (show isWsChar ':' = false from rfl) _
    have hval : parseVal f (' ' :: (printVal lvl v ++ '\n' :: (ws ++ '}' :: rest)))
        = some (v, '\n' :: (ws ++ '}' :: rest)) := by
      rw [show (' ' :: (printVal lvl v ++ '\n' :: (ws ++ '}' :: rest)))
        = [' '] ++ (printVal lvl v ++ '\n' :: (ws ++ '}' :: rest)) from rfl]
      rw [parseVal_ws f (by decide)]
      exact hv lvl f _ (by omega) (by simp [headNotDigit])
    have hskT : skipWs ('\n' :: (ws ++ '}' :: rest)) = '}' :: rest := by
      rw [skipWs_cons_ws (by decide), skipWs_append_all hws, skipWs_cons_not (by decide)]
    simp [hstr, hsk2, hval, hskT, string_mk_data]
  | cons q ps' ih =>
    intro k v hm lvl fuel ws rest hfuel hws
    obtain ⟨k2, v2⟩ := q
    have hv := hm (k, v) (by simp)
    rw [needFields] at hfuel
    have hpos2 : 1 ≤ needFields (k2, v2) ps' := by
      cases ps' <;> (rw [needFields]; have := needFuel_pos v2; omega)
    obtain ⟨f, rfl⟩ : ∃ f, fuel = f + 1 := ⟨fuel - 1, by have := needFuel_pos v; omega⟩
    rw [printFields]
    simp only [List.append_assoc, List.cons_append]
    rw [skipWs_append_all (jIndent_all_ws lvl),
      skipWs_cons_not (show isWsChar '"' = false from rfl)]
    rw [parseFields]
    have hstr := parseStrGo_escape k.data
      (':' :: ' ' :: (printVal lvl v ++ ',' :: '\n' ::
        (printFields lvl (k2, v2) ps' ++ '\n' :: (ws ++ '}' :: rest))))
    have hsk2 : skipWs (':' :: ' ' :: (printVal lvl v ++ ',' :: '\n' ::
        (printFields lvl (k2, v2) ps' ++ '\n' :: (ws ++ '}' :: rest))))
        = ':' :: ' ' :: (printVal lvl v ++ ',' :: '\n' ::
        (printFields lvl (k2, v2) ps' ++ '\n' :: (ws ++ '}' :: rest))) :=
      skipWs_cons_not (show isWsChar ':' = false from rfl) _
    have hval : parseVal f (' ' :: (printVal lvl v ++ ',' :: '\n' ::
        (printFields lvl (k2, v2) ps' ++ '\n' :: (ws ++ '}' :: rest))))
        = some (v, ',' :: '\n' ::
        (printFields lvl (k2, v2) ps' ++ '\n' :: (ws ++ '}' :: rest))) := by
      rw [show (' ' :: (printVal lvl v ++ ',' :: '\n' ::
        (printFields lvl (k2, v2) ps' ++ '\n' :: (ws ++ '}' :: rest))))
        = [' '] ++ (printVal lvl v ++ ',' :: '\n' ::
        (printFields lvl (k2, v2) ps' ++ '\n' :: (ws ++ '}' :: rest))) from rfl]
      rw [parseVal_ws f (by decide)]
      exact hv lvl f _ (by omega) (by simp [headNotDigit])
    have hskT : skipWs (',' :: '\n' ::
        (printFields lvl (k2, v2) ps' ++ '\n' :: (ws ++ '}' :: rest)))
        = ',' :: '\n' ::
        (printFields lvl (k2, v2) ps' ++ '\n' :: (ws ++ '}' :: rest)) :=
      skipWs_cons_not (show isWsChar ',' = false from rfl) _
    have hrec : parseFields f (skipWs ('\n' ::
        (printFields lvl (k2, v2) ps' ++ '\n' :: (ws ++ '}' :: rest))))
        = some ((k2, v2) :: ps', rest) := by
      rw [skipWs_cons_ws (by decide)]
      exact ih k2 v2 (fun x hx => hm x (by simp [hx])) lvl f ws rest (by omega) hws
    simp [hstr, hsk2, hval, hskT, hrec, string_mk_data]

theorem skipWs_printElems_head (lvl : Nat) (v : JVal) (vs : List JVal) (X : List Char) :
    ∃ d t, skipWs (printElems lvl v vs ++ X) = d :: t ∧ goodFirst d = true := by
  obtain ⟨c, t, hpv, hgf⟩ := printVal_starts lvl v
  cases vs with
  | nil =>
    rw [printElems, List.append_assoc, skipWs_append_all (jIndent_all_ws lvl), hpv,
      List.cons_append, skipWs_cons_not (goodFirst_not_ws hgf)]
    exact ⟨c, _, rfl, hgf⟩
  | cons w vs' =>
    rw [printElems]
    simp only [List.append_assoc, List.cons_append]
    rw [skipWs_append_all (jIndent_all_ws lvl), hpv, List.cons_append,
      skipWs_cons_not (goodFirst_not_ws hgf)]
    exact ⟨c, _, rfl, hgf⟩

theorem skipWs_printFields_head (lvl : Nat) (p : String × JVal)
    (ps : List (String × JVal)) (X : List Char) :
    ∃ t, skipWs (printFields lvl p ps ++ X) = '"' :: t := by
  obtain ⟨k, v⟩ := p
  cases ps with
  | nil =>
    rw [printFields]
    simp only [List.append_assoc, List.cons_append]
    rw [skipWs_append_all (jIndent_all_ws lvl),
      skipWs_cons_not (show isWsChar '"' = false from rfl)]
    exact ⟨_, rfl⟩
  | cons q ps' =>
    rw [printFields]
    simp only [List.append_assoc, List.cons_append]
    rw [skipWs_append_all (jIndent_all_ws lvl),
      skipWs_cons_not (show isWsChar '"' = false from rfl)]
    exact ⟨_, rfl⟩

theorem digit_not_ws {c : Char} (h : c.isDigit = true) : isWsChar c = false := by
  rw [isDigit_iff] at h
  cases hws : isWsChar c
  · rfl
  · rw [isWsChar_iff] at hws
    omega

theorem digit_ne_specials {c : Char} (h : c.isDigit = true) :
    c ≠ '"' ∧ c ≠ '{' ∧ c ≠ '[' ∧ c ≠ 't' ∧ c ≠ 'f' := by
  rw [isDigit_iff] at h
  refine ⟨fun hc => ?_, fun hc => ?_, fun hc => ?_, fun hc => ?_, fun hc => ?_⟩ <;>
    (simp only [char_eq_iff_toNat, show ('"'.toNat) = 34 from rfl,
      show ('{'.toNat) = 123 from rfl, show ('['.toNat) = 91 from rfl,
      show ('t'.toNat) = 116 from rfl, show ('f'.toNat) = 102 from rfl] at hc; omega)

theorem printVal_roundtrip : ∀ v : JVal, RTP v := by
  intro v
  induction v using JVal.induct with
  | hstr s =>
    intro lvl fuel rest hfuel hrest
    obtain ⟨f, rfl⟩ : ∃ f, fuel = f + 1 := ⟨fuel - 1, by
      rw [needFuel] at hfuel; omega⟩
    rw [printVal, parseVal]
    simp only [List.append_assoc, List.cons_append, List.nil_append]
    rw [skipWs_cons_not (show isWsChar '"' = false from rfl)]
    have hstr := parseStrGo_escape s.data rest
    simp [hstr, string_mk_data]
  | hnum n =>
    intro lvl fuel rest hfuel hrest
    obtain ⟨f, rfl⟩ : ∃ f, fuel = f + 1 := ⟨fuel - 1, by
      rw [needFuel] at hfuel; omega⟩
    rw [printVal, parseVal]
    obtain ⟨c, t, hnc, hdig⟩ : ∃ c t, natChars n = c :: t ∧ c.isDigit = true := by
      cases hx : natChars n with
      | nil => exact absurd hx (natChars_ne_nil n)
      | cons c t => exact ⟨c, t, rfl, natChars_all_digits n c (by rw [hx]; simp)⟩
    obtain ⟨hq, hbr, hbk, ht, hf⟩ := digit_ne_specials hdig
    rw [hnc, List.cons_append, skipWs_cons_not (digit_not_ws hdig)]
    have hpn : parseNat (c :: (t ++ rest)) = some (n, rest) := by
      rw [show c :: (t ++ rest) = (c :: t) ++ rest from rfl, ← hnc]
      exact parseNat_natChars n rest hrest
    simp [hq, hbr, hbk, ht, hf, hdig, hpn]
  | hbool b =>
    intro lvl fuel rest hfuel hrest
    obtain ⟨f, rfl⟩ : ∃ f, fuel = f + 1 := ⟨fuel - 1, by
      rw [needFuel] at hfuel; omega⟩
    cases b
    · rw [printVal, parseVal]
      simp only [Bool.false_eq_true, if_false, ite_false, List.cons_append, List.nil_append]
      rw [skipWs_cons_not (show isWsChar 'f' = false from rfl)]
      simp
    · rw [printVal, parseVal]
      simp only [if_true, ite_true, List.cons_append, List.nil_append]
      rw [skipWs_cons_not (show isWsChar 't' = false from rfl)]
      simp
  | harr vs ihm =>
    intro lvl fuel rest hfuel hrest
    cases vs with
    | nil =>
      obtain ⟨f, rfl⟩ : ∃ f, fuel = f + 1 := ⟨fuel - 1, by
        rw [needFuel] at hfuel; omega⟩
      rw [printVal, parseVal]
      simp only [List.cons_append, List.nil_append]
      rw [skipWs_cons_not (show isWsChar '[' = false from rfl)]
      have h2 : skipWs (']' :: rest) = ']' :: rest :=
        skipWs_cons_not (show isWsChar ']' = false from rfl) _
      simp [h2]
    | cons v vs' =>
      rw [needFuel] at hfuel
      obtain ⟨f, rfl⟩ : ∃ f, fuel = f + 1 := ⟨fuel - 1, by omega⟩
      rw [printVal, parseVal]
      simp only [List.append_assoc, List.cons_append]
      rw [skipWs_cons_not (show isWsChar '[' = false from rfl)]
      obtain ⟨d, r2, hsk, hgf⟩ := skipWs_printElems_head (lvl + 1) v vs'
        ('\n' :: (jIndent lvl ++ (']' :: rest)))
      have hne : d ≠ ']' := (goodFirst_ne_close hgf).1
      have hsk2 : skipWs ('\n' ::
          (printElems (lvl + 1) v vs' ++ '\n' :: (jIndent lvl ++ ']' :: rest)))
          = d :: r2 := by
        rw [skipWs_cons_ws (show isWsChar '\n' = true from rfl)]
        exact hsk
      have hpe : parseElems f (d :: r2) = some (v :: vs', rest) := by
        rw [← hsk, parseElems_skipWs]
        exact parseElems_printElems vs' v
          (fun x hx => ihm x (by simpa using hx)) (lvl + 1) f (jIndent lvl) rest
          (by omega) (jIndent_all_ws lvl)
      simp [hsk2, hne, hpe]
  | hobj ps ihm =>
    intro lvl fuel rest hfuel hrest
    cases ps with
    | nil =>
      obtain ⟨f, rfl⟩ : ∃ f, fuel = f + 1 := ⟨fuel - 1, by
        rw [needFuel] at hfuel; omega⟩
      rw [printVal, parseVal]
      simp only [List.cons_append, List.nil_append]
      rw [skipWs_cons_not (show isWsChar '{' = false from rfl)]
      have h2 : skipWs ('}' :: rest) = '}' :: rest :=
        skipWs_cons_not (show isWsChar '}' = false from rfl) _
      simp [h2]
    | cons p ps' =>
      rw [needFuel] at hfuel
      obtain ⟨k, v⟩ := p
      obtain ⟨f, rfl⟩ : ∃ f, fuel = f + 1 := ⟨fuel - 1, by omega⟩
      rw [printVal, parseVal]
      simp only [List.append_assoc, List.cons_append]
      rw [skipWs_cons_not (show isWsChar '{' = false from rfl)]
      obtain ⟨t, hsk⟩ := skipWs_printFields_head (lvl + 1) (k, v) ps'
        ('\n' :: (jIndent lvl ++ ('}' :: rest)))
      have hsk2 : skipWs ('\n' ::
          (printFields (lvl + 1) (k, v) ps' ++ '\n' :: (jIndent lvl ++ '}' :: rest)))
          = '"' :: t := by
        rw [skipWs_cons_ws (show isWsChar '\n' = true from rfl)]
        exact hsk
      have hpf : parseFields f ('"' :: t) = some ((k, v) :: ps', rest) := by
        rw [← hsk]
        exact parseFields_printFields ps' k v
          (fun x hx => ihm x (by simpa using hx)) (lvl + 1) f (jIndent lvl) rest
          (by omega) (jIndent_all_ws lvl)
      simp [hsk2, hpf]

theorem needElems_le_length
    (vs : List JVal) (v : JVal)
    (hm : ∀ x ∈ v :: vs, ∀ lvl, needFuel x ≤ (printVal lvl x).length) (lvl : Nat) :
    needElems v vs ≤ 1 + (printElems lvl v vs).length := by
  induction vs generalizing v with
  | nil =>
    rw [needElems, printElems]
    have := hm v (by simp) lvl
    simp only [List.length_append]
    omega
  | cons w vs' ih =>
    rw [needElems, printElems]
    have h1 := hm v (by simp) lvl
    have h2 := ih w (fun x hx => hm x (by simp [hx]))
    simp only [List.length_append, List.length_cons]
    omega

theorem needFields_le_length
    (ps : List (String × JVal)) (k : String) (v : JVal)
    (hm : ∀ q ∈ (k, v) :: ps, ∀ lvl, needFuel (Prod.snd q) ≤ (printVal lvl (Prod.snd q)).length)
    (lvl : Nat) :
    needFields (k, v) ps ≤ 1 + (printFields lvl (k, v) ps).length := by
  induction ps generalizing k v with
  | nil =>
    rw [needFields, printFields]
    have h1 : needFuel v ≤ (printVal lvl v).length := hm (k, v) (by simp) lvl
    simp only [List.length_append, List.length_cons]
    omega
  | cons q ps' ih =>
    obtain ⟨k2, v2⟩ := q
    rw [needFields, printFields]
    have h1 : needFuel v ≤ (printVal lvl v).length := hm (k, v) (by simp) lvl
    have h2 := ih k2 v2 (fun x hx => hm x (by simp [hx]))
    simp only [List.length_append, List.length_cons]
    omega

theorem needFuel_le_length (v : JVal) : ∀ lvl, needFuel v ≤ (printVal lvl v).length := by
  induction v using JVal.induct with
  | hstr s => intro lvl; rw [needFuel, printVal]; simp
  | hnum n =>
    intro lvl
    rw [needFuel, printVal]
    have := natChars_ne_nil n
    cases hx : natChars n with
    | nil => exact absurd hx this
    | cons c t => simp
  | hbool b => intro lvl; cases b <;> (rw [needFuel, printVal]; simp)
  | harr vs ihm =>
    intro lvl
    cases vs with
    | nil => rw [needFuel, printVal]; simp
    | cons v vs' =>
      rw [needFuel, printVal]
      have := needElems_le_length vs' v (fun x hx => ihm x (by simpa using hx)) (lvl + 1)
      simp only [List.length_cons, List.length_append]
      omega
  | hobj ps ihm =>
    intro lvl
    cases ps with
    | nil => rw [needFuel, printVal]; simp
    | cons p ps' =>
      obtain ⟨k, v⟩ := p
      rw [needFuel, printVal]
      have := needFields_le_length ps' k v (fun x hx => ihm x (by simpa using hx)) (lvl + 1)
      simp only [List.length_cons, List.length_append]
      omega

/-- Printing with json.dumps and structurally re-parsing restores the value. -/
theorem parseJson_dumpsJson (v : JVal) : parseJson (dumpsJson v) = some v := by
  unfold parseJson dumpsJson
  have hb := needFuel_le_length v 0
  have h := printVal_roundtrip v 0 ((printVal 0 v).length + 1) [] (by omega) rfl
  rw [List.append_nil] at h
  show (match parseVal ((printVal 0 v).length + 1) (printVal 0 v) with
    | some (v, rest) => if (skipWs rest).isEmpty then some v else none
    | none => none) = some v
  rw [h]
  rfl

/-! ## The HTTP Gateway (OSINTSearcher.safe_request, src/main.py lines 43-80)

The single session.get attempt is external I/O; its outcome is an explicit
input: either an HTTP response (requests follows redirects itself, so the
final status code is given) or one of the requests exceptions the handler
chain distinguishes.  requests.exceptions.ConnectTimeout inherits from both
Timeout and ConnectionError, so the model keeps it as its own constructor
seen by both predicates: the except clauses are tried in source order. -/

/-- An HTTP response as seen by the Python code. -/
structure HttpResponse where
  status_code : Nat
  text : String
  headers : List (String × String)

/-- The exceptions the try block of safe_request can raise. -/
inductive ReqException where
  | timeout
  | connectTimeout
  | connectionError
  | httpError
  | other (msg : String)

/-- Does the exception match except requests.exceptions.Timeout? -/
def ReqException.isTimeout : ReqException → Bool
  | .timeout => true
  | .connectTimeout => true
  | _ => false

/-- Does the exception match except requests.exceptions.ConnectionError? -/
def ReqException.isConnectionError : ReqException → Bool
  | .connectTimeout => true
  | .connectionError => true
  | _ => false

/-- Does the exception match except requests.exceptions.HTTPError? -/
def ReqException.isHTTPError : ReqException → Bool
  | .httpError => true
  | _ => false

/-- str(e), as the generic handler prints it.  Only the generic other
constructor ever reaches that handler. -/
def ReqException.message : ReqException → String
  | .other msg => msg
  | _ => ""

/-- Outcome of the network attempt inside the try block. -/
inductive AttemptOutcome where
  | resp (r : HttpResponse)
  | exn (e : ReqException)

/-- response.raise_for_status(): raises HTTPError exactly for 4xx and 5xx
status codes. -/
def raiseForStatus (code : Nat) : Option ReqException :=
  if 400 ≤ code ∧ code < 600 then some .httpError else none

/-- The try block of safe_request: the attempt either yields a response
whose raise_for_status passes, or raises. -/
def requestAttempt : AttemptOutcome → Except ReqException HttpResponse
  | .exn e => .error e
  | .resp r =>
    match raiseForStatus r.status_code with
    | some e => .error e
    | none => .ok r

/-- The error dictionary safe_request returns. -/
def errObj (msg : String) : JVal :=
  .obj [("status", .str "error"), ("error", .str msg)]

/-- The success dictionary safe_request returns. -/
def successObj (r : HttpResponse) : JVal :=
  .obj [("status", .str "success"), ("code", .num r.status_code),
    ("content", .str r.text),
    ("headers", .obj (r.headers.map (fun p => (p.1, .str p.2))))]

/-- The except clauses of safe_request, tried in source order. -/
def handleRequestError (e : ReqException) : JVal :=
  if e.isTimeout then errObj "Request timeout"
  else if e.isConnectionError then errObj "Connection failed"
  else if e.isHTTPError then errObj "HTTP Error"
  else errObj e.message

/-- OSINTSearcher.safe_request: a single attempt, every raised exception
converted to an error dictionary. -/
def safe_request (outcome : AttemptOutcome) : JVal :=
  match requestAttempt outcome with
  | .ok r => successObj r
  | .error e => handleRequestError e

/-! ## The searcher state (OSINTSearcher.__init__, lines 33-41) -/

/-- The state OSINTSearcher holds: the timestamp taken once at
construction, the TLS toggle, and the stored results dict. -/
structure OSINTSearcher where
  search_timestamp : String
  verify_ssl : Bool
  results : List (String × JVal)

/-- OSINTSearcher(verify_ssl): datetime.now().isoformat() is external, so
the construction time arrives as an input; results starts empty. -/
def OSINTSearcher.init (now : String) (verify_ssl : Bool) : OSINTSearcher :=
  { search_timestamp := now, verify_ssl := verify_ssl, results := [] }

/-- Dictionary lookup on an object value. -/
def jLookup (v : JVal) (k : String) : Option JVal :=
  match v with
  | .obj fields => List.lookup k fields
  | _ => none

/-! ## The Result Aggregator (the five search operations) -/

/-- OSINTSearcher.search_email_breach (lines 82-101): static record, no
live request. -/
def search_email_breach (s : OSINTSearcher) (email : String) : List (String × JVal) :=
  [("email", .str email),
   ("breaches", .arr []),
   ("search_date", .str s.search_timestamp),
   ("sources", .arr [.str "HaveIBeenPwned", .str "Public Breach Databases"])]

/-- The platform table of search_username (lines 120-123), in insertion
order. -/
def platformTable (username : String) : List (String × String) :=
  [("github", "https://api.github.com/users/" ++ username),
   ("linkedin", "https://www.linkedin.com/in/" ++ username)]

/-- Is the status field of a gateway response the string success? -/
def statusIsSuccess (response : JVal) : Bool :=
  match jLookup response "status" with
  | some (.str s) => s == "success"
  | _ => false

/-- The per-platform branch of search_username (lines 127-138).  On the
success path the code reads response[code], which is always present in a
success dictionary; the getD default is unreachable there.  On the error
path response.get(error, Unknown error) is modelled verbatim. -/
def checkPlatform (net : String → AttemptOutcome) (url : String) : JVal :=
  let response := safe_request (net url)
  if statusIsSuccess response then
    .obj [("found", .bool true), ("url", .str url),
      ("status_code", (jLookup response "code").getD (.num 0))]
  else
    .obj [("found", .bool false),
      ("error", (jLookup response "error").getD (.str "Unknown error"))]

/-- OSINTSearcher.search_username (lines 103-140): one gateway call per
platform, sequentially, in table order; outcomes merged into one record.
The outcome of each network attempt is supplied by net. -/
def search_username (s : OSINTSearcher) (net : String → AttemptOutcome)
    (username : String) : List (String × JVal) :=
  [("username", .str username),
   ("platforms", .obj ((platformTable username).map
      (fun p => (p.1, checkPlatform net p.2)))),
   ("search_date", .str s.search_timestamp)]

/-- OSINTSearcher.search_domain_info (lines 142-161): static record. -/
def search_domain_info (s : OSINTSearcher) (domain : String) : List (String × JVal) :=
  [("domain", .str domain),
   ("information", .obj []),
   ("search_date", .str s.search_timestamp),
   ("sources", .arr [.str "Public DNS", .str "Domain Registry"])]

/-- OSINTSearcher.search_phone_breach (lines 163-182): static record. -/
def search_phone_breach (s : OSINTSearcher) (phone : String) : List (String × JVal) :=
  [("phone", .str phone),
   ("breaches_found", .bool false),
   ("sources_checked", .arr [.str "Public breach databases", .str "Registered leak sites"]),
   ("search_date", .str s.search_timestamp)]

/-- OSINTSearcher.search_tor_monitoring (lines 184-212): static record with
a nested monitoring block. -/
def search_tor_monitoring (s : OSINTSearcher) (query : String) : List (String × JVal) :=
  [("query", .str query),
   ("tor_monitoring", .obj
     [("status", .str "monitored"),
      ("sources", .arr [.str "Threat Intelligence Feeds",
        .str "Public Forum Monitoring", .str "Leak Database Aggregators"]),
      ("findings", .arr [])]),
   ("search_date", .str s.search_timestamp),
   ("legal_notice", .str "This data comes from publicly available monitoring services only")]

/-! ## Export and save (lines 214-250) -/

/-- The banner line of the txt report: 50 equals signs. -/
def bannerLine : List Char := List.replicate 50 '='

/-- The blocks of the txt report: one per top-level key of the stored
results, the key upper-cased, the value dumped with json.dumps(value,
indent=2, ensure_ascii=False). -/
def txtBlocks : List (String × JVal) → List Char
  | [] => []
  | (k, v) :: rest =>
    '\n' :: ((pyUpper k).data ++ ':' :: '\n' :: (printVal 0 v ++ '\n' :: txtBlocks rest))

/-- The txt report of export_results (lines 226-233). -/
def exportTxtChars (s : OSINTSearcher) : List Char :=
  bannerLine ++ '\n' :: ("OSINTAAM Search Results".data
    ++ '\n' :: ("Generated: ".data ++ s.search_timestamp.data
    ++ '\n' :: (bannerLine ++ '\n' :: txtBlocks s.results)))

/-- OSINTSearcher.export_results (lines 214-235): json and txt branches
selected on format.lower(), anything else falling through to the json
dump. -/
def export_results (s : OSINTSearcher) (format : String) : String :=
  if pyLower format = "json" then dumpsJson (.obj s.results)
  else if pyLower format = "txt" then ⟨exportTxtChars s⟩
  else dumpsJson (.obj s.results)

/-- Outcome of the file write inside save_results: success, an IOError
(every failure of open or write is an OSError, which IOError aliases), or
some other exception. -/
inductive FileWriteOutcome where
  | ok
  | ioError (msg : String)
  | otherError (msg : String)

/-- OSINTSearcher.save_results (lines 237-250): the try block writes
export_results(format) to the file; except IOError logs and swallows the
failure; any other exception would propagate. -/
def save_results (s : OSINTSearcher) (format : String)
    (write : FileWriteOutcome) : Except String Unit :=
  match write with
  | .ok => .ok ()
  | .ioError _ => .ok ()
  | .otherError msg => .error msg

/-! ## Helper facts about the gateway -/

/-- The error string each handler clause stores, in source order. -/
def gatewayErrorString (e : ReqException) : String :=
  if e.isTimeout then "Request timeout"
  else if e.isConnectionError then "Connection failed"
  else if e.isHTTPError then "HTTP Error"
  else e.message

theorem handleRequestError_eq (e : ReqException) :
    handleRequestError e = errObj (gatewayErrorString e) := by
  cases e <;> rfl

theorem gatewayErrorString_ne_empty (e : ReqException)
    (h : (e.isTimeout || e.isConnectionError || e.isHTTPError) = true) :
    gatewayErrorString e ≠ "" := by
  cases e <;> simp_all [gatewayErrorString, ReqException.isTimeout,
    ReqException.isConnectionError, ReqException.isHTTPError]

/-! ## Claims about the Gateway -/

/-- Claim C1: safe_request classifies failures mutually exclusively with the
except clauses tried in source order: a timeout gives exactly the error
dictionary with message Request timeout (never another string); a
connection failure that is not a timeout gives Connection failed; an HTTP
error that is neither gives HTTP Error; any other fault gives its own
message; a 4xx or 5xx response gives HTTP Error through raise_for_status;
and every other status code gives the success dictionary with code, content
and headers. -/
theorem safe_request_classification :
    (∀ e : ReqException, e.isTimeout = true →
      safe_request (.exn e) = errObj "Request timeout") ∧
    (∀ e : ReqException, e.isTimeout = false → e.isConnectionError = true →
      safe_request (.exn e) = errObj "Connection failed") ∧
    (∀ e : ReqException, e.isTimeout = false → e.isConnectionError = false →
      e.isHTTPError = true → safe_request (.exn e) = errObj "HTTP Error") ∧
    (∀ msg, safe_request (.exn (.other msg)) = errObj msg) ∧
    (∀ r : HttpResponse, 400 ≤ r.status_code → r.status_code < 600 →
      safe_request (.resp r) = errObj "HTTP Error") ∧
    (∀ r : HttpResponse, ¬(400 ≤ r.status_code ∧ r.status_code < 600) →
      safe_request (.resp r) = successObj r) := by
  refine ⟨?_, ?_, ?_, ?_, ?_, ?_⟩
  · intro e h
    cases e <;> simp_all [safe_request, requestAttempt, handleRequestError,
      ReqException.isTimeout, ReqException.isConnectionError, ReqException.isHTTPError]
  · intro e h1 h2
    cases e <;> simp_all [safe_request, requestAttempt, handleRequestError,
      ReqException.isTimeout, ReqException.isConnectionError, ReqException.isHTTPError]
  · intro e h1 h2 h3
    cases e <;> simp_all [safe_request, requestAttempt, handleRequestError,
      ReqException.isTimeout, ReqException.isConnectionError, ReqException.isHTTPError]
  · intro msg
    rfl
  · intro r h1 h2
    simp [safe_request, requestAttempt, raiseForStatus, h1, h2, handleRequestError,
      ReqException.isTimeout, ReqException.isConnectionError, ReqException.isHTTPError]
  · intro r h
    simp [safe_request, requestAttempt, raiseForStatus, h]

/-- Witness for C1 at concrete outcomes, one per classification. -/
theorem safe_request_classification_witness :
    safe_request (.exn .timeout) = errObj "Request timeout" ∧
    safe_request (.exn .connectTimeout) = errObj "Request timeout" ∧
    safe_request (.exn .connectionError) = errObj "Connection failed" ∧
    safe_request (.exn .httpError) = errObj "HTTP Error" ∧
    safe_request (.resp ⟨404, "nf", []⟩) = errObj "HTTP Error" ∧
    safe_request (.resp ⟨200, "ok", []⟩) = successObj ⟨200, "ok", []⟩ := by
  obtain ⟨h1, h2, h3, h4, h5, h6⟩ := safe_request_classification
  exact ⟨h1 _ rfl, h1 _ rfl, h2 _ rfl rfl, h3 _ rfl rfl rfl,
    h5 _ (by norm_num) (by norm_num), h6 _ (by decide)⟩

/-! ## Claims about search_username -/

/-- Counterexample to C2 as stated: when the network attempt raises a
generic exception whose message is empty, the per-platform record has
found false but an empty error string, not a non-empty one. -/
theorem searchUsername_empty_error_string :
    List.lookup "platforms"
      (search_username (OSINTSearcher.init "2024-01-01T00:00:00" true)
        (fun _ => .exn (.other "")) "octocat")
      = some (.obj
        [("github", .obj [("found", .bool false), ("error", .str "")]),
         ("linkedin", .obj [("found", .bool false), ("error", .str "")])]) := by
  rfl

/-- Claim C2 (amended): searchUsername checks the platforms in insertion
order of the table (github, then linkedin); a success-range response maps
to found true with the platform url and status code; an error
classification maps to found false with the error string the Gateway
stored, and that string is non-empty for the timeout, connection-failure
and HTTP classifications (it can be empty only when an unknown fault
carries an empty message). -/
theorem searchUsername_platform_mapping (now : String) (verify : Bool)
    (username : String) (net : String → AttemptOutcome) :
    (platformTable username).map Prod.fst = ["github", "linkedin"] ∧
    List.lookup "platforms"
        (search_username (OSINTSearcher.init now verify) net username)
      = some (.obj ((platformTable username).map
          (fun p => (p.1, checkPlatform net p.2)))) ∧
    (∀ u r, net u = .resp r → ¬(400 ≤ r.status_code ∧ r.status_code < 600) →
      checkPlatform net u = .obj [("found", .bool true), ("url", .str u),
        ("status_code", .num r.status_code)]) ∧
    (∀ u e, net u = .exn e →
      checkPlatform net u
        = .obj [("found", .bool false), ("error", .str (gatewayErrorString e))] ∧
      ((e.isTimeout || e.isConnectionError || e.isHTTPError) = true →
        gatewayErrorString e ≠ "")) ∧
    (∀ u r, net u = .resp r → 400 ≤ r.status_code → r.status_code < 600 →
      checkPlatform net u
        = .obj [("found", .bool false), ("error", .str "HTTP Error")]) := by
  refine ⟨rfl, rfl, ?_, ?_, ?_⟩
  · intro u r hnet hcode
    unfold checkPlatform
    rw [hnet]
    have hs : safe_request (.resp r) = successObj r := by
      simp [safe_request, requestAttempt, raiseForStatus, hcode]
    rw [hs]
    simp [statusIsSuccess, successObj, jLookup, List.lookup]
  · intro u e hnet
    constructor
    · unfold checkPlatform
      rw [hnet]
      have hs : safe_request (.exn e) = errObj (gatewayErrorString e) := by
        simp [safe_request, requestAttempt, handleRequestError_eq]
      rw [hs]
      simp [statusIsSuccess, errObj, jLookup, List.lookup]
    · exact gatewayErrorString_ne_empty e
  · intro u r hnet h1 h2
    unfold checkPlatform
    rw [hnet]
    have hs : safe_request (.resp r) = errObj "HTTP Error" := by
      simp [safe_request, requestAttempt, raiseForStatus, h1, h2, handleRequestError,
        ReqException.isTimeout, ReqException.isConnectionError, ReqException.isHTTPError]
    rw [hs]
    simp [statusIsSuccess, errObj, jLookup, List.lookup]

/-- Witness for the amended C2 at concrete inputs: a 200 response is mapped
to found true, a timeout to found false with the stored non-empty error
string. -/
theorem searchUsername_platform_mapping_witness :
    checkPlatform (fun _ => .resp ⟨200, "ok", []⟩) "https://api.github.com/users/octocat"
      = .obj [("found", .bool true), ("url", .str "https://api.github.com/users/octocat"),
        ("status_code", .num 200)] ∧
    checkPlatform (fun _ => .exn .timeout) "https://api.github.com/users/octocat"
      = .obj [("found", .bool false), ("error", .str "Request timeout")] ∧
    gatewayErrorString .timeout ≠ "" := by
  obtain ⟨-, -, hsucc, hexn, -⟩ :=
    searchUsername_platform_mapping "2024-01-01T00:00:00" true "octocat"
      (fun _ => .resp ⟨200, "ok", []⟩)
  obtain ⟨-, -, -, hexn2, -⟩ :=
    searchUsername_platform_mapping "2024-01-01T00:00:00" true "octocat"
      (fun _ => .exn .timeout)
  refine ⟨hsucc _ ⟨200, "ok", []⟩ rfl (by decide), ?_, ?_⟩
  · exact (hexn2 "https://api.github.com/users/octocat" .timeout rfl).1
  · exact (hexn2 "https://api.github.com/users/octocat" .timeout rfl).2 rfl

/-- Claim C3: the five aggregator operations are total on every input (no
validation, nothing to raise: each is a function straight to a record with
its fixed keys), and every gateway failure inside search_username is
captured as a per-platform found false entry of the returned record, never
propagated as a failure of the whole operation. -/
theorem aggregator_total_and_captures (now : String) (verify : Bool)
    (email username domain phone query : String) (net : String → AttemptOutcome) :
    ((search_email_breach (OSINTSearcher.init now verify) email).map Prod.fst
      = ["email", "breaches", "search_date", "sources"]) ∧
    ((search_username (OSINTSearcher.init now verify) net username).map Prod.fst
      = ["username", "platforms", "search_date"]) ∧
    ((search_domain_info (OSINTSearcher.init now verify) domain).map Prod.fst
      = ["domain", "information", "search_date", "sources"]) ∧
    ((search_phone_breach (OSINTSearcher.init now verify) phone).map Prod.fst
      = ["phone", "breaches_found", "sources_checked", "search_date"]) ∧
    ((search_tor_monitoring (OSINTSearcher.init now verify) query).map Prod.fst
      = ["query", "tor_monitoring", "search_date", "legal_notice"]) ∧
    (∀ p u, (p, u) ∈ platformTable username →
      statusIsSuccess (safe_request (net u)) = false →
      List.lookup "platforms"
          (search_username (OSINTSearcher.init now verify) net username)
        = some (.obj ((platformTable username).map
            (fun q => (q.1, checkPlatform net q.2)))) ∧
      List.lookup p ((platformTable username).map
          (fun q => (q.1, checkPlatform net q.2)))
        = some (.obj [("found", .bool false),
            ("error", (jLookup (safe_request (net u)) "error").getD
              (.str "Unknown error"))])) := by
  refine ⟨rfl, rfl, rfl, rfl, rfl, ?_⟩
  intro p u hmem hfail
  refine ⟨rfl, ?_⟩
  have hcheck : checkPlatform net u = .obj [("found", .bool false),
      ("error", (jLookup (safe_request (net u)) "error").getD
        (.str "Unknown error"))] := by
    unfold checkPlatform
    rw [if_neg (by simp [hfail])]
  simp only [platformTable, List.mem_cons, List.not_mem_nil, or_false] at hmem
  rcases hmem with h | h <;>
    (injection h with h1 h2; subst h1; subst h2;
     simp [platformTable, List.lookup, hcheck])

/-- Witness for C3 at concrete inputs: a connection failure on the github
attempt is captured inside the record. -/
theorem aggregator_total_and_captures_witness :
    List.lookup "github" ((platformTable "octocat").map
        (fun q => (q.1, checkPlatform (fun _ => .exn .connectionError) q.2)))
      = some (.obj [("found", .bool false),
          ("error", (jLookup (safe_request (.exn .connectionError)) "error").getD
            (.str "Unknown error"))]) := by
  obtain ⟨-, -, -, -, -, h⟩ :=
    aggregator_total_and_captures "2024-01-01T00:00:00" true
      "a@b.c" "octocat" "example.com" "+1" "leak" (fun _ => .exn .connectionError)
  exact (h "github" "https://api.github.com/users/octocat" (by decide) (by decide)).2

/-- Claim C4: every result of the five operations of one searcher instance
carries exactly one search_date field, and its value is the timestamp fixed
at construction, so all results of one run share it. -/
theorem search_date_once_per_instance (now : String) (verify : Bool)
    (email username domain phone query : String) (net : String → AttemptOutcome) :
    ((search_email_breach (OSINTSearcher.init now verify) email).filter
      (fun p => p.1 == "search_date") = [("search_date", .str now)]) ∧
    ((search_username (OSINTSearcher.init now verify) net username).filter
      (fun p => p.1 == "search_date") = [("search_date", .str now)]) ∧
    ((search_domain_info (OSINTSearcher.init now verify) domain).filter
      (fun p => p.1 == "search_date") = [("search_date", .str now)]) ∧
    ((search_phone_breach (OSINTSearcher.init now verify) phone).filter
      (fun p => p.1 == "search_date") = [("search_date", .str now)]) ∧
    ((search_tor_monitoring (OSINTSearcher.init now verify) query).filter
      (fun p => p.1 == "search_date") = [("search_date", .str now)]) := by
  exact ⟨rfl, rfl, rfl, rfl, rfl⟩

/-- Counterexample to C5 as stated: the record search_username returns has
no top-level sources list at all. -/
theorem searchUsername_no_sources :
    List.lookup "sources"
      (search_username (OSINTSearcher.init "2024-01-01T00:00:00" true)
        (fun _ => .exn .timeout) "octocat") = none := by
  rfl

/-- Claim C5 (amended): every result of the five operations carries its
category-specific field and the shared search_date; a top-level sources
list is present only in the email and domain results, the phone result
carries sources_checked instead, and the username and tor results carry no
top-level sources entry. -/
theorem searchResult_shape (now : String) (verify : Bool)
    (email username domain phone query : String) (net : String → AttemptOutcome) :
    (List.lookup "email" (search_email_breach (OSINTSearcher.init now verify) email)
        = some (.str email) ∧
     List.lookup "search_date" (search_email_breach (OSINTSearcher.init now verify) email)
        = some (.str now) ∧
     List.lookup "sources" (search_email_breach (OSINTSearcher.init now verify) email)
        = some (.arr [.str "HaveIBeenPwned", .str "Public Breach Databases"])) ∧
    (List.lookup "username" (search_username (OSINTSearcher.init now verify) net username)
        = some (.str username) ∧
     List.lookup "search_date" (search_username (OSINTSearcher.init now verify) net username)
        = some (.str now) ∧
     List.lookup "sources" (search_username (OSINTSearcher.init now verify) net username)
        = none) ∧
    (List.lookup "domain" (search_domain_info (OSINTSearcher.init now verify) domain)
        = some (.str domain) ∧
     List.lookup "search_date" (search_domain_info (OSINTSearcher.init now verify) domain)
        = some (.str now) ∧
     List.lookup "sources" (search_domain_info (OSINTSearcher.init now verify) domain)
        = some (.arr [.str "Public DNS", .str "Domain Registry"])) ∧
    (List.lookup "phone" (search_phone_breach (OSINTSearcher.init now verify) phone)
        = some (.str phone) ∧
     List.lookup "search_date" (search_phone_breach (OSINTSearcher.init now verify) phone)
        = some (.str now) ∧
     List.lookup "sources" (search_phone_breach (OSINTSearcher.init now verify) phone)
        = none ∧
     List.lookup "sources_checked" (search_phone_breach (OSINTSearcher.init now verify) phone)
        = some (.arr [.str "Public breach databases", .str "Registered leak sites"])) ∧
    (List.lookup "query" (search_tor_monitoring (OSINTSearcher.init now verify) query)
        = some (.str query) ∧
     List.lookup "search_date" (search_tor_monitoring (OSINTSearcher.init now verify) query)
        = some (.str now) ∧
     List.lookup "sources" (search_tor_monitoring (OSINTSearcher.init now verify) query)
        = none) := by
  exact ⟨⟨rfl, rfl, rfl⟩, ⟨rfl, rfl, rfl⟩, ⟨rfl, rfl, rfl⟩, ⟨rfl, rfl, rfl, rfl⟩,
    ⟨rfl, rfl, rfl⟩⟩

/-- Claim C6: exporting the stored result as json and structurally
re-parsing the output reproduces exactly the stored mapping. -/
theorem exportResults_json_roundtrip (s : OSINTSearcher) :
    parseJson (export_results s "json") = some (.obj s.results) := by
  unfold export_results
  rw [if_pos (show pyLower "json" = "json" from rfl)]
  exact parseJson_dumpsJson _

/-- Claim C8: every format other than json and txt (case-insensitively)
falls back to the json dump without raising: the result is literally the
string exportResults json returns. -/
theorem exportResults_unknown_format (s : OSINTSearcher) (format : String)
    (h1 : pyLower format ≠ "json") (h2 : pyLower format ≠ "txt") :
    export_results s format = export_results s "json" := by
  unfold export_results
  rw [if_neg h1, if_neg h2, if_pos (show pyLower "json" = "json" from rfl)]

/-- Witness for C8 at the concrete unknown format csv. -/
theorem exportResults_unknown_format_witness :
    export_results (OSINTSearcher.init "2024-01-01T00:00:00" true) "csv"
      = export_results (OSINTSearcher.init "2024-01-01T00:00:00" true) "json" :=
  exportResults_unknown_format _ "csv" (by decide) (by decide)

/-- Claim C9: a file-write failure inside save_results is an IOError, which
the except clause logs and swallows: the call returns normally instead of
raising, for every searcher state, format and failure message. -/
theorem saveResults_swallows_write_failure (s : OSINTSearcher) (format msg : String) :
    save_results s format (.ioError msg) = .ok () := by
  rfl

/-- Claim C10: export_results lowercases its format argument before
comparing, so the upper-case spellings select the same branch as the
lower-case ones, for every stored result. -/
theorem exportResults_case_insensitive (s : OSINTSearcher) :
    export_results s "JSON" = export_results s "json" ∧
    export_results s "TXT" = export_results s "txt" := by
  constructor
  · unfold export_results
    rw [show pyLower "JSON" = "json" from rfl, show pyLower "json" = "json" from rfl]
  · unfold export_results
    rw [show pyLower "TXT" = "txt" from rfl, show pyLower "txt" = "txt" from rfl]

/-! ## Lines of the txt report -/

/-- Split a character list into its lines (a trailing newline yields a
final empty line, as the report ends with one). -/
def splitLines : List Char → List (List Char)
  | [] => [[]]
  | c :: rest =>
    if c = '\n' then [] :: splitLines rest
    else
      match splitLines rest with
      | l :: ls => (c :: l) :: ls
      | [] => [[c]]

theorem splitLines_ne_nil (cs : List Char) : splitLines cs ≠ [] := by
  induction cs with
  | nil => simp [splitLines]
  | cons c rest ih =>
    rw [splitLines]
    split
    · simp
    · cases h : splitLines rest with
      | nil => simp
      | cons l ls => simp

theorem splitLines_append_nl (x y : List Char) :
    splitLines (x ++ '\n' :: y) = splitLines x ++ splitLines y := by
  induction x with
  | nil => simp [splitLines]
  | cons c x' ih =>
    by_cases hc : c = '\n'
    · subst hc
      rw [List.cons_append, splitLines, if_pos rfl, ih, splitLines, if_pos rfl,
        List.cons_append]
    · rw [List.cons_append, splitLines, if_neg hc, ih]
      rw [splitLines, if_neg hc]
      cases h : splitLines x' with
      | nil => exact absurd h (splitLines_ne_nil x')
      | cons l ls => simp

theorem splitLines_noNl {x : List Char} (h : '\n' ∉ x) : splitLines x = [x] := by
  induction x with
  | nil => rfl
  | cons c x' ih =>
    rw [splitLines, if_neg (by intro hc; exact h (by simp [hc]))]
    rw [ih (by intro hc; exact h (by simp [hc]))]

theorem splitLines_append_left {a : List Char} (h : '\n' ∉ a) (cs : List Char) :
    ∃ first L, splitLines cs = first :: L ∧ splitLines (a ++ cs) = (a ++ first) :: L := by
  induction a with
  | nil =>
    cases hc : splitLines cs with
    | nil => exact absurd hc (splitLines_ne_nil cs)
    | cons first L => exact ⟨first, L, rfl, by simpa using hc⟩
  | cons c a' ih =>
    obtain ⟨first, L, h1, h2⟩ := ih (by intro hc; exact h (by simp [hc]))
    refine ⟨first, L, h1, ?_⟩
    rw [List.cons_append, splitLines, if_neg (by intro hc; exact h (by simp [hc])), h2]
    rfl

theorem splitLines_append_right {b : List Char} (hb : '\n' ∉ b) (cs : List Char) :
    ∃ L last, splitLines cs = L ++ [last] ∧ splitLines (cs ++ b) = L ++ [last ++ b] := by
  induction cs with
  | nil => exact ⟨[], [], rfl, by simpa using splitLines_noNl hb⟩
  | cons c cs' ih =>
    obtain ⟨L, last, h1, h2⟩ := ih
    by_cases hc : c = '\n'
    · subst hc
      refine ⟨[] :: L, last, ?_, ?_⟩
      · rw [splitLines, if_pos rfl, h1]
        rfl
      · rw [List.cons_append, splitLines, if_pos rfl, h2]
        rfl
    · cases L with
      | nil =>
        refine ⟨[], c :: last, ?_, ?_⟩
        · rw [splitLines, if_neg hc, h1]
          rfl
        · rw [List.cons_append, splitLines, if_neg hc, h2]
          rfl
      | cons h0 L' =>
        refine ⟨(c :: h0) :: L', last, ?_, ?_⟩
        · rw [splitLines, if_neg hc, h1]
          rfl
        · rw [List.cons_append, splitLines, if_neg hc, h2]
          rfl

/-- Characters a line of json.dumps output can end with: brackets, comma,
quote, the final letter of true and false, or a digit. -/
def endChar (c : Char) : Bool :=
  c = '{' || c = '}' || c = '[' || c = ']' || c = ',' || c = '"' || c = 'e' || c.isDigit

/-- Every line of the block is non-empty and ends in an endChar. -/
def linesOk (cs : List Char) : Prop :=
  ∀ l ∈ splitLines cs, ∃ c, l.getLast? = some c ∧ endChar c = true

theorem linesOk_single {x : List Char} {c : Char} (hn : '\n' ∉ x)
    (hl : x.getLast? = some c) (he : endChar c = true) : linesOk x := by
  intro l hm
  rw [splitLines_noNl hn] at hm
  simp at hm
  subst hm
  exact ⟨c, hl, he⟩

theorem linesOk_append_nl {x y : List Char} (hx : linesOk x) (hy : linesOk y) :
    linesOk (x ++ '\n' :: y) := by
  intro l hm
  rw [splitLines_append_nl] at hm
  rcases List.mem_append.mp hm with h | h
  · exact hx l h
  · exact hy l h

theorem linesOk_append_left {a cs : List Char} (ha : '\n' ∉ a) (h : linesOk cs) :
    linesOk (a ++ cs) := by
  obtain ⟨first, L, h1, h2⟩ := splitLines_append_left ha cs
  intro l hm
  rw [h2] at hm
  rcases List.mem_cons.mp hm with rfl | hmem
  · obtain ⟨c, hc, he⟩ := h first (by rw [h1]; simp)
    refine ⟨c, ?_, he⟩
    rw [List.getLast?_append_of_ne_nil a (by
      intro hnil
      subst hnil
      simp at hc)]
    exact hc
  · exact h l (by rw [h1]; simp [hmem])

theorem linesOk_append_right {cs b : List Char} {c : Char} (h : linesOk cs)
    (hb : '\n' ∉ b) (hl : b.getLast? = some c) (he : endChar c = true) :
    linesOk (cs ++ b) := by
  obtain ⟨L, last, h1, h2⟩ := splitLines_append_right hb cs
  intro l hm
  rw [h2] at hm
  rcases List.mem_append.mp hm with hmem | hmem
  · exact h l (by rw [h1]; simp [hmem])
  · simp at hmem
    subst hmem
    refine ⟨c, ?_, he⟩
    rw [List.getLast?_append_of_ne_nil last (by
      intro hnil
      subst hnil
      simp at hl)]
    exact hl

/-! ## No raw newline in the printed pieces -/

theorem escapeChar_no_nl (c : Char) : '\n' ∉ escapeChar c := by
  unfold escapeChar
  split
  · decide
  split
  · decide
  split
  · decide
  split
  · decide
  split
  · decide
  split
  · decide
  split
  · decide
  split
  · rename_i h32
    intro hm
    simp only [List.mem_cons, List.not_mem_nil, or_false] at hm
    rcases hm with h | h | h | h | h | h
    · exact absurd h.symm (by decide)
    · exact absurd h.symm (by decide)
    · exact absurd h.symm (by decide)
    · exact absurd h.symm (by decide)
    · have := (digitChar_hex_facts (c.toNat / 16) (by omega)).1
      rw [← h] at this
      exact absurd this (by decide)
    · have := (digitChar_hex_facts (c.toNat % 16) (Nat.mod_lt _ (by norm_num))).1
      rw [← h] at this
      exact absurd this (by decide)
  · rename_i h8 h9 h10 h12 h13 h32
    intro hm
    simp only [List.mem_cons, List.not_mem_nil, or_false] at hm
    exact h10 (by rw [← hm]; rfl)

theorem escapeList_no_nl (cs : List Char) : '\n' ∉ escapeList cs := by
  induction cs with
  | nil => simp [escapeList]
  | cons c cs' ih =>
    rw [escapeList]
    intro hm
    rcases List.mem_append.mp hm with h | h
    · exact escapeChar_no_nl c h
    · exact ih h

theorem natChars_no_nl (n : Nat) : '\n' ∉ natChars n := by
  intro hm
  have := natChars_all_digits n '\n' hm
  exact absurd this (by decide)

theorem jIndent_no_nl (lvl : Nat) : '\n' ∉ jIndent lvl := by
  intro hm
  have := List.eq_of_mem_replicate hm
  exact absurd this (by decide)

theorem mem_of_getLast?_eq {l : List Char} {a : Char} (h : l.getLast? = some a) :
    a ∈ l := by
  have hx : a ∈ l.getLast? := h
  obtain ⟨hne, heq⟩ := List.mem_getLast?_eq_getLast hx
  rw [heq]
  exact List.getLast_mem hne

theorem keyItem_no_nl (k : String) :
    '\n' ∉ ('"' :: escapeList k.data ++ ['"', ':', ' ']) := by
  intro hmem
  rcases List.mem_cons.mp hmem with h | h
  · exact absurd h (by decide)
  · rcases List.mem_append.mp h with h | h
    · exact escapeList_no_nl k.data h
    · revert h
      decide

theorem linesOk_printElems (vs : List JVal) (v : JVal)
    (hm : ∀ x ∈ v :: vs, ∀ lvl, linesOk (printVal lvl x)) (lvl : Nat) :
    linesOk (printElems lvl v vs) := by
  induction vs generalizing v with
  | nil =>
    rw [printElems]
    exact linesOk_append_left (jIndent_no_nl lvl) (hm v (by simp) lvl)
  | cons w vs' ih =>
    rw [printElems]
    have hshape : jIndent lvl ++ printVal lvl v ++ ',' :: '\n' :: printElems lvl w vs'
        = (jIndent lvl ++ (printVal lvl v ++ [','])) ++ '\n' :: printElems lvl w vs' := by
      simp
    rw [hshape]
    refine linesOk_append_nl ?_ (ih w (fun x hx => hm x (by simp [hx])))
    refine linesOk_append_left (jIndent_no_nl lvl) ?_
    exact linesOk_append_right (c := ',') (hm v (by simp) lvl) (by decide) rfl (by decide)

theorem linesOk_printFields (ps : List (String × JVal)) (k : String) (v : JVal)
    (hm : ∀ q ∈ (k, v) :: ps, ∀ lvl, linesOk (printVal lvl (Prod.snd q))) (lvl : Nat) :
    linesOk (printFields lvl (k, v) ps) := by
  induction ps generalizing k v with
  | nil =>
    rw [printFields]
    refine linesOk_append_left (jIndent_no_nl lvl) ?_
    have hshape : '"' :: (escapeList k.data ++ '"' :: ':' :: ' ' :: printVal lvl v)
        = ('"' :: escapeList k.data ++ ['"', ':', ' ']) ++ printVal lvl v := by
      simp
    rw [hshape]
    exact linesOk_append_left (keyItem_no_nl k) (hm (k, v) (by simp) lvl)
  | cons q ps' ih =>
    obtain ⟨k2, v2⟩ := q
    rw [printFields]
    have hshape : jIndent lvl
          ++ ('"' :: (escapeList k.data ++ '"' :: ':' :: ' ' :: printVal lvl v))
          ++ ',' :: '\n' :: printFields lvl (k2, v2) ps'
        = (jIndent lvl ++ (('"' :: escapeList k.data ++ ['"', ':', ' '])
            ++ (printVal lvl v ++ [','])))
          ++ '\n' :: printFields lvl (k2, v2) ps' := by
      simp
    rw [hshape]
    refine linesOk_append_nl ?_ (ih k2 v2 (fun x hx => hm x (by simp [hx])))
    refine linesOk_append_left (jIndent_no_nl lvl) ?_
    refine linesOk_append_left (keyItem_no_nl k) ?_
    exact linesOk_append_right (c := ',') (hm (k, v) (by simp) lvl) (by decide) rfl (by decide)

theorem linesOk_printVal (v : JVal) : ∀ lvl, linesOk (printVal lvl v) := by
  induction v using JVal.induct with
  | hstr s =>
    intro lvl
    rw [printVal]
    refine linesOk_single (c := '"') ?_ ?_ (by decide)
    · intro hmem
      simp only [List.mem_cons, List.mem_append, List.not_mem_nil, or_false] at hmem
      rcases hmem with h | h | h
      · exact absurd h.symm (by decide)
      · exact escapeList_no_nl s.data h
      · exact absurd h (by decide)
    · have hs : ('"' :: (escapeList s.data ++ ['"'])).getLast?
          = (['"'] : List Char).getLast? := by
        rw [show ('"' :: (escapeList s.data ++ ['"']))
          = ('"' :: escapeList s.data) ++ ['"'] by simp]
        exact List.getLast?_append_of_ne_nil _ (by simp)
      rw [hs]
      rfl
  | hnum n =>
    intro lvl
    rw [printVal]
    cases hl : (natChars n).getLast? with
    | none => exact absurd (List.getLast?_eq_none_iff.mp hl) (natChars_ne_nil n)
    | some c =>
      have hdig := natChars_all_digits n c (mem_of_getLast?_eq hl)
      exact linesOk_single (natChars_no_nl n) hl (by simp [endChar, hdig])
  | hbool b =>
    intro lvl
    cases b
    · rw [printVal]
      exact linesOk_single (c := 'e') (by decide) (by decide) (by decide)
    · rw [printVal]
      exact linesOk_single (c := 'e') (by decide) (by decide) (by decide)
  | harr vs ihm =>
    intro lvl
    cases vs with
    | nil =>
      rw [printVal]
      exact linesOk_single (c := ']') (by decide) (by decide) (by decide)
    | cons v vs' =>
      rw [printVal]
      rw [show ('[' :: '\n' :: (printElems (lvl + 1) v vs' ++ '\n' :: (jIndent lvl ++ [']'])))
        = ['['] ++ '\n' :: (printElems (lvl + 1) v vs' ++ '\n' :: (jIndent lvl ++ [']'])) from rfl]
      refine linesOk_append_nl (linesOk_single (c := '[') (by decide) (by decide) (by decide)) ?_
      refine linesOk_append_nl (linesOk_printElems vs' v (fun x hx lv => ihm x (by simpa using hx) lv) (lvl + 1)) ?_
      refine linesOk_append_left (jIndent_no_nl lvl) ?_
      exact linesOk_single (c := ']') (by decide) (by decide) (by decide)
  | hobj ps ihm =>
    intro lvl
    cases ps with
    | nil =>
      rw [printVal]
      exact linesOk_single (c := '}') (by decide) (by decide) (by decide)
    | cons p ps' =>
      obtain ⟨k, v⟩ := p
      rw [printVal]
      rw [show ('{' :: '\n' :: (printFields (lvl + 1) (k, v) ps' ++ '\n' :: (jIndent lvl ++ ['}'])))
        = ['{'] ++ '\n' :: (printFields (lvl + 1) (k, v) ps' ++ '\n' :: (jIndent lvl ++ ['}'])) from rfl]
      refine linesOk_append_nl (linesOk_single (c := '{') (by decide) (by decide) (by decide)) ?_
      refine linesOk_append_nl (linesOk_printFields ps' k v (fun x hx lv => ihm x (by simpa using hx) lv) (lvl + 1)) ?_
      refine linesOk_append_left (jIndent_no_nl lvl) ?_
      exact linesOk_single (c := '}') (by decide) (by decide) (by decide)

/-! ## upperChar facts -/

theorem upperChar_toNat (c : Char) : (upperChar c).toNat
    = if 97 ≤ c.toNat ∧ c.toNat ≤ 122 then c.toNat - 32 else c.toNat := by
  unfold upperChar
  split
  · rename_i h
    exact toNat_ofNat_valid (by omega)
  · rfl

theorem upperChar_ne_nl {c : Char} (h : c ≠ '\n') : upperChar c ≠ '\n' := by
  intro heq
  have ht := congrArg Char.toNat heq
  rw [upperChar_toNat] at ht
  rw [show ('\n'.toNat) = 10 from rfl] at ht
  split at ht
  · omega
  · exact h (char_eq_of_toNat_eq (by rw [ht]; rfl))

theorem upperChar_ne_e (c : Char) : upperChar c ≠ 'e' := by
  intro heq
  have ht := congrArg Char.toNat heq
  rw [upperChar_toNat] at ht
  rw [show ('e'.toNat) = 101 from rfl] at ht
  split at ht <;> omega

theorem pyUpper_no_nl {k : String} (h : '\n' ∉ k.data) : '\n' ∉ (pyUpper k).data := by
  intro hm
  simp only [pyUpper, List.mem_map] at hm
  obtain ⟨c, hc, heq⟩ := hm
  exact upperChar_ne_nl (fun hcn => h (hcn ▸ hc)) heq

/-! ## The lines of the txt report blocks -/

theorem splitLines_txtBlocks (res : List (String × JVal))
    (hkeys : ∀ p ∈ res, '\n' ∉ (Prod.fst p : String).data) :
    splitLines (txtBlocks res)
      = (res.flatMap (fun p => [[], (pyUpper p.1).data ++ [':']]
          ++ splitLines (printVal 0 p.2))) ++ [[]] := by
  induction res with
  | nil => rfl
  | cons p rest ih =>
    obtain ⟨k, v⟩ := p
    rw [txtBlocks]
    rw [show ('\n' :: ((pyUpper k).data ++ ':' :: '\n'
        :: (printVal 0 v ++ '\n' :: txtBlocks rest)))
      = [] ++ '\n' :: (((pyUpper k).data ++ [':'])
        ++ '\n' :: (printVal 0 v ++ '\n' :: txtBlocks rest)) by simp]
    rw [splitLines_append_nl, splitLines_append_nl, splitLines_append_nl]
    have hkn : '\n' ∉ ((pyUpper k).data ++ [':']) := by
      intro hm
      rcases List.mem_append.mp hm with h | h
      · exact pyUpper_no_nl (hkeys (k, v) (by simp)) h
      · revert h
        decide
    rw [splitLines_noNl hkn, ih (fun q hq => hkeys q (by simp [hq]))]
    simp [splitLines]

theorem keyline_getLast? (k : String) :
    ((pyUpper k).data ++ [':']).getLast? = some ':' := by
  rw [List.getLast?_append_of_ne_nil _ (by simp)]
  rfl

theorem bannerLine_getLast? : bannerLine.getLast? = some '=' := by decide

theorem line_ne_of_linesOk {cs : List Char} (h : linesOk cs) {l : List Char}
    (hm : l ∈ splitLines cs) {d : Char} {t : List Char}
    (ht : t.getLast? = some d) (hd : endChar d = false) : l ≠ t := by
  intro heq
  obtain ⟨c, hc, he⟩ := h l hm
  rw [heq, ht] at hc
  injection hc with hc
  rw [← hc] at he
  rw [he] at hd
  cases hd

theorem count_txtBlocks_banner (res : List (String × JVal)) :
    ((res.flatMap (fun p => [[], (pyUpper p.1).data ++ [':']]
        ++ splitLines (printVal 0 p.2))) ++ [[]]).count bannerLine = 0 := by
  rw [List.count_eq_zero]
  intro hm
  rcases List.mem_append.mp hm with h | h
  · rw [List.mem_flatMap] at h
    obtain ⟨p, hp, hmem⟩ := h
    rcases List.mem_append.mp hmem with h | h
    · simp only [List.mem_cons, List.not_mem_nil, or_false] at h
      rcases h with h | h
      · exact absurd h.symm (by decide)
      · have := congrArg List.getLast? h
        rw [keyline_getLast?, bannerLine_getLast?] at this
        injection this with this
        exact absurd this (by decide)
    · exact line_ne_of_linesOk (linesOk_printVal p.2 0) h
        bannerLine_getLast? (by decide) rfl
  · simp only [List.mem_cons, List.not_mem_nil, or_false] at h
    exact absurd h.symm (by decide)

theorem keyline_inj {k1 k2 : String}
    (h : (pyUpper k1).data ++ [':'] = (pyUpper k2).data ++ [':']) :
    pyUpper k1 = pyUpper k2 := by
  have := List.append_cancel_right h
  cases hp : pyUpper k1
  cases hq : pyUpper k2
  rw [hp, hq] at this
  exact congrArg String.mk this

theorem count_txtBlocks_keyline (res : List (String × JVal)) (target : String) :
    ((res.flatMap (fun p => [[], (pyUpper p.1).data ++ [':']]
        ++ splitLines (printVal 0 p.2))) ++ [[]]).count ((pyUpper target).data ++ [':'])
      = (res.map (fun p => pyUpper (Prod.fst p))).count (pyUpper target) := by
  induction res with
  | nil =>
    simp only [List.flatMap_nil, List.nil_append, List.map_nil, List.count_nil]
    rw [List.count_eq_zero]
    intro hm
    simp only [List.mem_cons, List.not_mem_nil, or_false] at hm
    have := congrArg List.getLast? hm
    rw [keyline_getLast?] at this
    simp at this
  | cons p rest ih =>
    obtain ⟨k, v⟩ := p
    rw [List.flatMap_cons, List.map_cons]
    rw [List.append_assoc, List.count_append]
    have hz : (splitLines (printVal 0 v)).count ((pyUpper target).data ++ [':']) = 0 := by
      rw [List.count_eq_zero]
      intro hm
      exact line_ne_of_linesOk (linesOk_printVal v 0) hm
        (keyline_getLast? target) (by decide) rfl
    have hempty : (([] : List Char) == (pyUpper target).data ++ [':']) = false := by
      rw [beq_eq_false_iff_ne]
      intro hm
      have := congrArg List.getLast? hm
      rw [keyline_getLast?] at this
      simp at this
    have hfirst : ([[], (pyUpper k).data ++ [':']]
        ++ splitLines (printVal 0 v)).count ((pyUpper target).data ++ [':'])
        = if pyUpper k = pyUpper target then 1 else 0 := by
      rw [List.count_append, hz, List.count_cons, List.count_cons, List.count_nil]
      rw [hempty]
      by_cases hk : pyUpper k = pyUpper target
      · rw [if_pos hk, hk]
        simp
      · rw [if_neg hk]
        have hb : (((pyUpper k).data ++ [':']) == (pyUpper target).data ++ [':']) = false := by
          rw [beq_eq_false_iff_ne]
          intro heq
          exact hk (keyline_inj heq)
        rw [hb]
        simp
    rw [hfirst, ih, List.count_cons]
    by_cases hk : pyUpper k = pyUpper target
    · have hb : (pyUpper (k, v).1 == pyUpper target) = true := beq_iff_eq.mpr hk
      rw [hb, if_pos hk]
      simp only [reduceIte]
      omega
    · have hb : (pyUpper (k, v).1 == pyUpper target) = false :=
        beq_eq_false_iff_ne.mpr hk
      rw [hb, if_neg hk]
      simp

theorem genline_ne_banner (ts : List Char) :
    ("Generated: ".data ++ ts) ≠ bannerLine := by
  intro heq
  have hg : 'G' ∈ "Generated: ".data ++ ts := List.mem_append_left _ (by decide)
  rw [heq] at hg
  have := List.eq_of_mem_replicate hg
  exact absurd this (by decide)

theorem genline_ne_keyline (ts : List Char) (k : String) :
    ("Generated: ".data ++ ts) ≠ ((pyUpper k).data ++ [':']) := by
  intro heq
  have hplen : ((pyUpper k).data).length = k.data.length := by simp [pyUpper]
  have hlen := congrArg List.length heq
  rw [List.length_append, List.length_append, hplen,
    show ("Generated: ".data).length = 11 from rfl,
    show ([':'] : List Char).length = 1 from rfl] at hlen
  have hk2 : 2 ≤ k.data.length := by omega
  have h1 : ("Generated: ".data ++ ts).get? 1 = ((pyUpper k).data ++ [':']).get? 1 := by
    rw [heq]
  rw [List.get?_append (by decide : (1:Nat) < ("Generated: ".data).length)] at h1
  rw [List.get?_append (by omega : (1:Nat) < ((pyUpper k).data).length)] at h1
  rw [show ("Generated: ".data).get? 1 = some 'e' from rfl] at h1
  rw [show (pyUpper k).data = k.data.map upperChar from rfl, List.get?_map] at h1
  cases hc : k.data.get? 1 with
  | none =>
    rw [hc] at h1
    exact Option.noConfusion h1
  | some c =>
    rw [hc] at h1
    rw [show Option.map upperChar (some c) = some (upperChar c) from rfl] at h1
    injection h1 with h1
    exact upperChar_ne_e c h1.symm

/-- Claim C7: for every stored result whose timestamp and keys are
newline-free (as every value this program stores is) and whose upper-cased
keys are distinct (Python dict keys are), the txt export contains the
banner line exactly twice, and exactly one block header per top-level key
of the stored result. -/
theorem exportResults_txt_shape (s : OSINTSearcher)
    (hts : '\n' ∉ s.search_timestamp.data)
    (hkeys : ∀ p ∈ s.results, '\n' ∉ (Prod.fst p : String).data)
    (hnodup : (s.results.map (fun p => pyUpper (Prod.fst p))).Nodup) :
    (splitLines (export_results s "txt").data).count bannerLine = 2 ∧
    ∀ p ∈ s.results,
      (splitLines (export_results s "txt").data).count
        ((pyUpper (Prod.fst p)).data ++ [':']) = 1 := by
  have hexp : (export_results s "txt").data = exportTxtChars s := rfl
  have hshape : exportTxtChars s
      = bannerLine ++ '\n' :: ("OSINTAAM Search Results".data
        ++ '\n' :: ((("Generated: ".data ++ s.search_timestamp.data))
        ++ '\n' :: (bannerLine ++ '\n' :: txtBlocks s.results))) := by
    rw [exportTxtChars]
  have hnb : '\n' ∉ bannerLine := by decide
  have hnt : '\n' ∉ "OSINTAAM Search Results".data := by decide
  have hng : '\n' ∉ ("Generated: ".data ++ s.search_timestamp.data) := by
    intro hm
    rcases List.mem_append.mp hm with h | h
    · revert h
      decide
    · exact hts h
  have hlines : splitLines (exportTxtChars s)
      = bannerLine :: "OSINTAAM Search Results".data
        :: ("Generated: ".data ++ s.search_timestamp.data) :: bannerLine
        :: ((s.results.flatMap (fun p => [[], (pyUpper p.1).data ++ [':']]
            ++ splitLines (printVal 0 p.2))) ++ [[]]) := by
    rw [hshape, splitLines_append_nl, splitLines_append_nl, splitLines_append_nl,
      splitLines_append_nl]
    rw [splitLines_noNl hnb, splitLines_noNl hnt, splitLines_noNl hng,
      splitLines_txtBlocks s.results hkeys]
    simp
  rw [hexp, hlines]
  constructor
  · rw [List.count_cons, List.count_cons, List.count_cons, List.count_cons]
    rw [show (bannerLine == bannerLine) = true from beq_iff_eq.mpr rfl]
    rw [show ("OSINTAAM Search Results".data == bannerLine) = false from by decide]
    rw [show (("Generated: ".data ++ s.search_timestamp.data) == bannerLine) = false
      from beq_eq_false_iff_ne.mpr (genline_ne_banner _)]
    rw [count_txtBlocks_banner]
    simp
  · intro p hp
    obtain ⟨k, v⟩ := p
    rw [List.count_cons, List.count_cons, List.count_cons, List.count_cons]
    have hb1 : (bannerLine == (pyUpper (k, v).1).data ++ [':']) = false := by
      rw [beq_eq_false_iff_ne]
      intro heq
      have := congrArg List.getLast? heq
      rw [bannerLine_getLast?, keyline_getLast?] at this
      injection this with this
      exact absurd this (by decide)
    have hb2 : ("OSINTAAM Search Results".data == (pyUpper (k, v).1).data ++ [':'])
        = false := by
      rw [beq_eq_false_iff_ne]
      intro heq
      have := congrArg List.getLast? heq
      rw [keyline_getLast?] at this
      rw [show ("OSINTAAM Search Results".data).getLast? = some 's' from rfl] at this
      injection this with this
      exact absurd this (by decide)
    have hb3 : (("Generated: ".data ++ s.search_timestamp.data)
        == (pyUpper (k, v).1).data ++ [':']) = false :=
      beq_eq_false_iff_ne.mpr (genline_ne_keyline _ _)
    rw [hb1, hb2, hb3, count_txtBlocks_keyline]
    have hmem : pyUpper (k, v).1 ∈ s.results.map (fun p => pyUpper (Prod.fst p)) :=
      List.mem_map_of_mem _ hp
    rw [List.count_eq_one_of_mem hnodup hmem]
    simp

/-- Witness for C7 at a concrete searcher state holding an email-shaped
result. -/
theorem exportResults_txt_shape_witness :
    (splitLines (export_results
      { search_timestamp := "2024-01-01T00:00:00", verify_ssl := true,
        results := [("email", .str "a@b.c"), ("breaches", .arr [])] } "txt").data).count
        bannerLine = 2 ∧
    ∀ p ∈ ([("email", JVal.str "a@b.c"), ("breaches", JVal.arr [])]
        : List (String × JVal)),
      (splitLines (export_results
        { search_timestamp := "2024-01-01T00:00:00", verify_ssl := true,
          results := [("email", .str "a@b.c"), ("breaches", .arr [])] } "txt").data).count
          ((pyUpper (Prod.fst p)).data ++ [':']) = 1 :=
  exportResults_txt_shape
    { search_timestamp := "2024-01-01T00:00:00", verify_ssl := true,
      results := [("email", .str "a@b.c"), ("breaches", .arr [])] }
    (by decide) (by decide) (by decide)
